import Mathlib

/-!
Verification development for `OpenSim/Tools/IKTarget.cpp`: a shallow embedding of the
inverse-kinematics target (residual evaluator, finite-difference Jacobian builder,
iterative Gauss-Newton-style solver, coordinate/marker classification and per-frame
binding) together with theorems settling the specification claims.

Modelling conventions:
* `double` values are modelled as `ℚ` (exact arithmetic; overflow/rounding of IEEE
  doubles is out of scope of the claims settled here).
* The external collaborators (the C library `sqrt`, the dynamics engine's
  `transformPosition` forward kinematics, and LAPACK's `dgelsy_` least-squares solve)
  are opaque function parameters bundled in `Env`.
* Mutable C++ state (model coordinate values, per-marker `computedPosition`,
  the `dError` vector, the matrix `J`) is passed explicitly; vectors are `List ℚ`
  written with `List.set`, matrices are column-major `List (List ℚ)` as in
  SimTK/LAPACK storage.
* `SimTK::Vector`/`SimTK::Matrix` indexed writes out of range are C++ undefined
  behaviour; `List.set` out of range is a no-op, and every theorem below only relies
  on in-range writes.
-/

/-- A world-frame or body-frame point, `SimTK::Vec3`. -/
structure Vec3 where
  x : ℚ
  y : ℚ
  z : ℚ
deriving DecidableEq, Repr

/-- Component access `v[r]` for `r = 0,1,2` (out-of-range reads return 0;
the source only uses `r < 3`). -/
def Vec3.nth (v : Vec3) : Nat → ℚ
  | 0 => v.x
  | 1 => v.y
  | 2 => v.z
  | _ => 0

/-- One entry of `IKTarget::_markers` (struct `markerToSolve`): a model marker with
nonzero task weight and resolved experimental columns.  The `marker`/`body`
pointers of the source are identified with the position of the entry in the
`_markers` array, which is how the forward-kinematics oracle addresses them. -/
structure markerToSolve where
  weight : ℚ
  experimentalColumn : Nat
  experimentalPosition : Vec3
  computedPosition : Vec3
  validExperimentalPosition : Bool
deriving DecidableEq, Repr

/-- One entry of `IKTarget`'s coordinate bookkeeping (struct `coordinateInfo`).
`coordIndex` stands for the `AbstractCoordinate*` pointer: it is the index of the
coordinate in the model's coordinate set, which also indexes the model-state value
list `qs`. -/
structure coordinateInfo where
  coordIndex : Nat
  prescribed : Bool
  experimentalColumn : Int
  constantExperimentalValue : ℚ
  weight : ℚ
  experimentalValue : ℚ
deriving DecidableEq, Repr

/-- The external collaborators consumed by `IKTarget`, kept opaque:
`sqrt` is the C library square root, `fk` is the composition
`marker->getOffset` + `AbstractDynamicsEngine::transformPosition` (given the full
model coordinate values and the index of a marker in `_markers`, its world
position), and `solveLLS` is LAPACK's `dgelsy_` returning a least-squares solution
and the reported numerical rank. -/
structure Env where
  sqrt : ℚ → ℚ
  fk : List ℚ → Nat → Vec3
  solveLLS : List (List ℚ) → List ℚ → List ℚ × Int

/-- The mutable state of an `IKTarget` object relevant to the claims:
the marker table `_markers`, the coordinate tables `_prescribedQs` /
`_unprescribedQs`, the model coordinate values (the state mutated through
`AbstractCoordinate::setValue`), the per-parameter finite-difference steps `_dx`,
and the cooperative cancellation flag `_interrupted`.
`_unprescribedWeightedQs` is the non-owning subset view `weightedQs`. -/
structure TState where
  markers : List markerToSolve
  prescribedQs : List coordinateInfo
  unprescribedQs : List coordinateInfo
  qs : List ℚ
  dx : List ℚ
  interrupted : Bool
deriving DecidableEq, Repr

/-- The subset view `_unprescribedWeightedQs`: unprescribed coordinates with nonzero
weight, in the same order (in the source these are aliasing pointers appended in
`buildCoordinateMap`; aliasing is modelled by recomputing the filter after each
mutation of `unprescribedQs`). -/
def weightedQs (ups : List coordinateInfo) : List coordinateInfo :=
  ups.filter (fun c => decide (c.weight ≠ 0))

/-- The loop `for i: _unprescribedQs[i]->coord->setValue(x[i], ...)`: apply a
parameter vector to the corresponding unprescribed model coordinates.  The
`i==getNumParameters()-1` recompute flag only controls when dependent kinematics
are refreshed inside the engine and has no observable effect here because `fk`
consumes the final coordinate values. -/
def setCoordValues (ups : List coordinateInfo) (x : List ℚ) (qs : List ℚ) : List ℚ :=
  go ups 0 qs
where
  /-- Sequential application, index `i` running over the parameter vector. -/
  go : List coordinateInfo → Nat → List ℚ → List ℚ
  | [], _, qs => qs
  | c :: rest, i, qs => go rest (i + 1) (qs.set c.coordIndex (x.getD i 0))

/-- Squared componentwise marker error `sum_j (experimental[j] - computed[j])^2`
accumulated by the `for (int j = 0; j < 3; j++)` loop of `objectiveFunc`, where
`computedPosition` has just been set to the world position `g`. -/
def markerSqError (m : markerToSolve) (g : Vec3) : ℚ :=
  (m.experimentalPosition.x - g.x) * (m.experimentalPosition.x - g.x) +
  ((m.experimentalPosition.y - g.y) * (m.experimentalPosition.y - g.y) +
   (m.experimentalPosition.z - g.z) * (m.experimentalPosition.z - g.z))

/-- The marker loop of `IKTarget::objectiveFunc` (lines 121-154): for each marker
with a valid experimental position, transform it to the world frame, record
`computedPosition`, and accumulate the squared errors and worst-offender
diagnostics.  Accumulator components: updated marker table, running
`totalWeightedSquaredErrors`, `totalMarkerSquaredErrors`, `maxMarkerError`,
`worstMarker`.  `i` is the loop index into `_markers`. -/
def objMarkerLoop (env : Env) (qs : List ℚ) :
    List markerToSolve → Nat → List markerToSolve → ℚ → ℚ → ℚ → Int →
    List markerToSolve × ℚ × ℚ × ℚ × Int
  | [], _, acc, tw, tm, mx, worst => (acc, tw, tm, mx, worst)
  | m :: rest, i, acc, tw, tm, mx, worst =>
    if m.validExperimentalPosition then
      let g := env.fk qs i
      let acc' := acc.set i { m with computedPosition := g }
      let markerError := markerSqError m g
      let tm' := tm + markerError
      let mx' := if markerError > mx then markerError else mx
      let worst' := if markerError > mx then (i : Int) else worst
      objMarkerLoop env qs rest (i + 1) acc' (tw + m.weight * markerError) tm' mx' worst'
    else
      objMarkerLoop env qs rest (i + 1) acc tw tm mx worst

/-- The coordinate loop of `IKTarget::objectiveFunc` (lines 156-174): for each
weighted unprescribed coordinate accumulate the weighted squared error between its
experimental value and its current model value, plus worst-offender diagnostics. -/
def objCoordLoop (qs : List ℚ) :
    List coordinateInfo → Nat → ℚ → ℚ → ℚ → Int → ℚ × ℚ × ℚ × Int
  | [], _, tw, tc, mx, worst => (tw, tc, mx, worst)
  | c :: rest, i, tw, tc, mx, worst =>
    let err := c.experimentalValue - qs.getD c.coordIndex 0
    let coordinateError := err * err
    let tc' := tc + coordinateError
    let mx' := if coordinateError > mx then coordinateError else mx
    let worst' := if coordinateError > mx then (i : Int) else worst
    objCoordLoop qs rest (i + 1) (tw + c.weight * coordinateError) tc' mx' worst'

/-- Body of `IKTarget::objectiveFunc` after the cancellation check: apply the
parameters, run the marker and coordinate loops, and return the total weighted
squared error together with the mutated state. -/
def objectiveEval (env : Env) (s : TState) (x : List ℚ) : ℚ × TState :=
  let qs' := setCoordValues s.unprescribedQs x s.qs
  let r := objMarkerLoop env qs' s.markers 0 s.markers 0 0 0 (-1)
  let rc := objCoordLoop qs' (weightedQs s.unprescribedQs) 0 r.2.1 0 0 (-1)
  (rc.1, { s with qs := qs', markers := r.1 })

/-- `IKTarget::objectiveFunc`: throws `InterruptedException` (modelled as
`Except.error ()`) when `_interrupted` is set, otherwise returns status 0, the
objective value `f`, and the mutated state. -/
def objectiveFunc (env : Env) (s : TState) (x : List ℚ) :
    Except Unit (Int × ℚ × TState) :=
  if s.interrupted then .error () else
    let r := objectiveEval env s x
    .ok (0, r.1, r.2)

/-- The fixed finite-difference step `IKTarget::_perturbation = 1e-3`. -/
def perturbation : ℚ := 1 / 1000

/-- The constructor's step allocation: `_dx[i] = _perturbation` for every
parameter (IKTarget constructor, lines 68-72). -/
def mkDx (n : Nat) : List ℚ := List.replicate n perturbation

/-- Modelled from the spec: the body of `rdOptimizationTarget::CentralDifferences`
is not among this repository's sources (only its call site in
`IKTarget::gradientFunc` is).  Per the spec, the gradient exposed to the generic
optimizer is obtained by one-sided forward finite differences of the scalar
objective itself, reusing the per-parameter steps `dx`: component `i` is
`(f(x with x_i increased by dx_i) - f(x)) / dx_i`. -/
def CentralDifferences (f : List ℚ → ℚ) (dx : List ℚ) (x : List ℚ) : List ℚ :=
  (List.range x.length).map fun i =>
    (f (x.set i (x.getD i 0 + dx.getD i 0)) - f x) / dx.getD i 0

/-- `IKTarget::gradientFunc`: delegates the differencing of the scalar objective to
`rdOptimizationTarget::CentralDifferences` with the step array `_dx`.  The
objective evaluations inside the differencing observe the cancellation flag, as
`objectiveFunc` does. -/
def gradientFunc (env : Env) (s : TState) (x : List ℚ) : Except Unit (Int × List ℚ) :=
  if s.interrupted then .error () else
    .ok (0, CentralDifferences (fun y => (objectiveEval env s y).1) s.dx x)

/-- The marker block of the residual evaluation inside
`IKTarget::iterativeOptimization` (the identical code at lines 270-287, 331-348
and 378-395): for each marker with a valid experimental position, transform it to
the world frame, store `computedPosition`, and write the three weighted residual
rows `dError(3*i+r) = sqrt(weight) * (experimental[r] - computed[r])`.  Markers
without a valid experimental position are skipped, so their rows of `dError` are
left untouched. -/
def dErrMarkerPass (env : Env) (qs : List ℚ) :
    List markerToSolve → Nat → List markerToSolve → List ℚ →
    List markerToSolve × List ℚ
  | [], _, acc, d => (acc, d)
  | m :: rest, i, acc, d =>
    if m.validExperimentalPosition then
      let g := env.fk qs i
      let acc' := acc.set i { m with computedPosition := g }
      let sw := env.sqrt m.weight
      let d' := ((d.set (3 * i) (sw * (m.experimentalPosition.x - g.x))).set
          (3 * i + 1) (sw * (m.experimentalPosition.y - g.y))).set
          (3 * i + 2) (sw * (m.experimentalPosition.z - g.z))
      dErrMarkerPass env qs rest (i + 1) acc' d'
    else
      dErrMarkerPass env qs rest (i + 1) acc d

/-- The `Q ERRORS` block of the residual evaluation inside
`IKTarget::iterativeOptimization` (lines 290-296, 351-358, 398-405): starting at
`row = 3 * |markers|`, one residual row per unprescribed coordinate with nonzero
weight, in parameter order: `sqrt(weight) * (experimentalValue - currentValue)`. -/
def dErrQPass (env : Env) (qs : List ℚ) :
    List coordinateInfo → Nat → List ℚ → List ℚ
  | [], _, d => d
  | c :: rest, row, d =>
    if c.weight ≠ 0 then
      dErrQPass env qs rest (row + 1)
        (d.set row (env.sqrt c.weight * (c.experimentalValue - qs.getD c.coordIndex 0)))
    else
      dErrQPass env qs rest row d

/-- One full residual evaluation of the iterative solver: the marker block followed
by the `Q ERRORS` block, updating the marker table and the `dError` vector in
place. -/
def computeDError (env : Env) (markers : List markerToSolve)
    (ups : List coordinateInfo) (qs : List ℚ) (d : List ℚ) :
    List markerToSolve × List ℚ :=
  let r := dErrMarkerPass env qs markers 0 markers d
  (r.1, dErrQPass env qs ups (3 * markers.length) r.2)

/-- `SimTK` matrix norm `dError.norm()`: the Euclidean norm of the residual
vector, through the opaque square root. -/
def dnorm (env : Env) (d : List ℚ) : ℚ :=
  env.sqrt ((d.map (fun v => v * v)).sum)

/-- The `markerWeights` vector of `IKTarget::createJacobian` (lines 843-849):
zero-initialised, then `sqrt(weight)` for each marker with a valid experimental
position (invalid markers are skipped and keep the zero). -/
def markerWeights (env : Env) (markers : List markerToSolve) : List ℚ :=
  markers.map fun m => if m.validExperimentalPosition then env.sqrt m.weight else 0

/-- The marker loop inside `IKTarget::createJacobian`'s control loop (lines
870-885): with the model perturbed to `qs1`, recompute each valid marker's world
position and write `pf(3*m+r) = markerWeights(m) * (globalPos[r] -
computedPosition[r])` (forward difference against the stored baseline).  Invalid
markers are skipped, leaving their `pf` entries untouched. -/
def jacMarkerPass (env : Env) (mw : List ℚ) (qs1 : List ℚ) :
    List markerToSolve → Nat → List ℚ → List ℚ
  | [], _, pf => pf
  | m :: rest, mi, pf =>
    if m.validExperimentalPosition then
      let g := env.fk qs1 mi
      let w := mw.getD mi 0
      let pf' := ((pf.set (3 * mi) (w * (g.x - m.computedPosition.x))).set
          (3 * mi + 1) (w * (g.y - m.computedPosition.y))).set
          (3 * mi + 2) (w * (g.z - m.computedPosition.z))
      jacMarkerPass env mw qs1 rest (mi + 1) pf'
    else
      jacMarkerPass env mw qs1 rest (mi + 1) pf

/-- The `LOOP OVER CONTROLS` of `IKTarget::createJacobian` (lines 855-927), over
the unprescribed coordinates in parameter order.  Per parameter `i`: perturb the
coordinate to `jointQs[i] + dx[i]` (the clamped-state save/restore of the source
only affects the engine's clamping of `setValue` and is a no-op here), run the
marker loop into `pf`, overwrite column `i` of the column-major `J` with
`(1/dx[i]) * pf`, restore the coordinate to `jointQs[i]`, and if the coordinate
has nonzero weight write `J(row, i) = sqrt(weight)` and advance `row` (which
starts at `3 * |markers|`). -/
def jacLoop (env : Env) (markers : List markerToSolve) (mw dx jointQs : List ℚ) :
    List coordinateInfo → Nat → Nat → List ℚ → List ℚ → List (List ℚ) →
    List ℚ × List (List ℚ)
  | [], _, _, qs, _, J => (qs, J)
  | c :: rest, i, row, qs, pf, J =>
    let qs1 := qs.set c.coordIndex (jointQs.getD i 0 + dx.getD i 0)
    let pf' := jacMarkerPass env mw qs1 markers 0 pf
    let rdx := 1 / dx.getD i 0
    let J1 := J.set i (pf'.map (fun v => rdx * v))
    let qs2 := qs1.set c.coordIndex (jointQs.getD i 0)
    if c.weight ≠ 0 then
      jacLoop env markers mw dx jointQs rest (i + 1) (row + 1) qs2 pf'
        (J1.set i ((J1.getD i []).set row (env.sqrt c.weight)))
    else
      jacLoop env markers mw dx jointQs rest (i + 1) row qs2 pf' J1

/-- `IKTarget::createJacobian`: builds the forward-difference Jacobian into the
column-major matrix `J`, returning the final model coordinate values and the
matrix.  `pf` starts as the zero vector of length
`3 * |markers| + |weightedUnprescribedCoordinates|` and persists across columns,
as in the source. -/
def createJacobian (env : Env) (markers : List markerToSolve)
    (ups : List coordinateInfo) (qs : List ℚ) (dx jointQs : List ℚ)
    (J : List (List ℚ)) : List ℚ × List (List ℚ) :=
  let mw := markerWeights env markers
  let pf := List.replicate (3 * markers.length + (weightedQs ups).length) (0 : ℚ)
  jacLoop env markers mw dx jointQs ups 0 (3 * markers.length) qs pf J

/-- The solver's convergence tolerance `errorTol = 1e-4`. -/
def errTol : ℚ := 1 / 10000

/-- The solver's iteration cap `maxIter = 1000`. -/
def maxIter : Nat := 1000

/-- Componentwise vector sum, `results.updCol(0) += dQ.col(0)` and
`results[i] + dQ(i,0)`. -/
def addVec (a b : List ℚ) : List ℚ := a.zipWith (fun u v => u + v) b

/-- The state carried across outer iterations of
`IKTarget::iterativeOptimization`: the pose `results`, the model coordinate
values, the marker table (whose `computedPosition` fields the evaluations
mutate), the residual vector `dError`, the matrix `J` (fully overwritten by each
`createJacobian` call), `currentDErrorNorm`, `deltaDErrorNorm` and the iteration
counter. -/
structure SState where
  results : List ℚ
  qs : List ℚ
  markers : List markerToSolve
  dErr : List ℚ
  J : List (List ℚ)
  currentNorm : ℚ
  delta : ℚ
  iter : Nat
deriving DecidableEq, Repr

/-- Result of the backtracking block: the (possibly halved) update `dQ`, the model
values, the marker table, the residual vector and its norm. -/
structure BTOut where
  dQ : List ℚ
  qs : List ℚ
  markers : List markerToSolve
  dErr : List ℚ
  norm : ℚ
deriving DecidableEq, Repr

/-- The backtracking loop of `IKTarget::iterativeOptimization` (lines 362-410):
while the trial residual norm exceeds the previous accepted norm, halve `dQ`,
re-apply `results + dQ` to the model, re-evaluate the residual and its norm.  The
source bounds the loop only by floating-point underflow of `dQ`; the embedding
makes the potential divergence explicit with `fuel`, returning `none` if the norm
still exceeds the previous norm when the fuel is exhausted. -/
def backtrackLoop (env : Env) (ups : List coordinateInfo) (results : List ℚ) :
    Nat → List ℚ → List ℚ → List markerToSolve → List ℚ → ℚ → ℚ → Option BTOut
  | 0, dQ, qs, markers, dErr, temp, previous =>
    if temp > previous then none else some ⟨dQ, qs, markers, dErr, temp⟩
  | fuel + 1, dQ, qs, markers, dErr, temp, previous =>
    if temp > previous then
      let dQ' := dQ.map (fun v => v * (1 / 2))
      let qs' := setCoordValues ups (addVec results dQ') qs
      let r := computeDError env markers ups qs' dErr
      let temp' := dnorm env r.2
      backtrackLoop env ups results fuel dQ' qs' r.1 r.2 temp' previous
    else some ⟨dQ, qs, markers, dErr, temp⟩

/-- One outer iteration of `IKTarget::iterativeOptimization` (lines 301-432):
remember the previous accepted norm, build the Jacobian at the current pose,
solve the damped linear least-squares system for `dQ` (the rank-deficiency
warning of the source only prints), apply the trial pose `results + dQ`,
re-evaluate the residual, backtrack while the trial norm exceeds the previous
norm, then accept: update the norm records, `deltaDErrorNorm`, the pose, and the
iteration counter. -/
def outerStep (env : Env) (ups : List coordinateInfo) (dx : List ℚ) (bfuel : Nat)
    (st : SState) : Option SState :=
  let previous := st.currentNorm
  let jr := createJacobian env st.markers ups st.qs dx st.results st.J
  let dQ := (env.solveLLS jr.2 st.dErr).1
  let qs1 := setCoordValues ups (addVec st.results dQ) jr.1
  let r := computeDError env st.markers ups qs1 st.dErr
  let temp := dnorm env r.2
  (backtrackLoop env ups st.results bfuel dQ qs1 r.1 r.2 temp previous).map
    fun out =>
      { results := addVec st.results out.dQ
        qs := out.qs
        markers := out.markers
        dErr := out.dErr
        J := jr.2
        currentNorm := out.norm
        delta := |out.norm - previous|
        iter := st.iter + 1 }

/-- The outer `while(deltaDErrorNorm > errorTol && iter < maxIter)` loop of
`IKTarget::iterativeOptimization` (lines 301-433).  `fuel` is initialised to
`maxIter`; since each pass increments `iter`, the fuel never runs out before the
source loop's own guard stops it. -/
def solverLoop (env : Env) (ups : List coordinateInfo) (dx : List ℚ)
    (bfuel : Nat) : Nat → SState → Option SState
  | 0, st => some st
  | fuel + 1, st =>
    if st.delta > errTol ∧ st.iter < maxIter then
      match outerStep env ups dx bfuel st with
      | none => none
      | some st' => solverLoop env ups dx bfuel fuel st'
    else some st

/-- `IKTarget::iterativeOptimization`: zero `dError`, evaluate the initial
residual and its norm at the pose `results` (lines 256-298), run the outer loop,
then reapply the final pose to the model exactly once (lines 439-442) and return
status 0 together with the final iteration count, the pose and the mutated
state.  The post-loop diagnostics block (lines 445-516) transforms markers and
accumulates error summaries but writes none of the state modelled here, and the
`iter` count is exposed so that the iteration bound can be stated. -/
def iterativeOptimization (env : Env) (bfuel : Nat) (s : TState)
    (results : List ℚ) : Option (Int × Nat × List ℚ × TState) :=
  let mrows := 3 * s.markers.length + (weightedQs s.unprescribedQs).length
  let qs1 := setCoordValues s.unprescribedQs results s.qs
  let r := computeDError env s.markers s.unprescribedQs qs1 (List.replicate mrows 0)
  let current := dnorm env r.2
  let st0 : SState :=
    { results := results
      qs := qs1
      markers := r.1
      dErr := r.2
      J := List.replicate s.unprescribedQs.length (List.replicate mrows 0)
      currentNorm := current
      delta := 100
      iter := 0 }
  (solverLoop env s.unprescribedQs s.dx bfuel maxIter st0).map fun st =>
    let qsF := setCoordValues s.unprescribedQs st.results st.qs
    (0, st.iter, st.results, { s with qs := qsF, markers := st.markers })

/-- A coordinate of the model's coordinate set, as seen through
`AbstractCoordinate`: its name, `getLocked()`, `isConstrained()` and
`getDefaultValue()`. -/
structure ModelCoordinate where
  name : String
  locked : Bool
  constrained : Bool
  defaultValue : ℚ
deriving DecidableEq, Repr

/-- `IKCoordinateTask::ValueType`. -/
inductive IKValueType
  | DefaultValue
  | ManualValue
  | FromFile
deriving DecidableEq, Repr

/-- An `IKCoordinateTask` from the task set. -/
structure IKCoordinateTask where
  name : String
  apply : Bool
  valueType : IKValueType
  value : ℚ
  weight : ℚ
deriving DecidableEq, Repr

/-- An entry of the heterogeneous `IKTaskSet`; the `dynamic_cast` in
`buildCoordinateMap` keeps coordinate tasks and skips the rest. -/
inductive IKTask
  | coordinate (t : IKCoordinateTask)
  | marker
deriving DecidableEq, Repr

/-- `Array<string>::rfindIndex`: the index of the last occurrence of `s`, or
`-1` when absent (used because coordinates appear after markers in the storage
labels). -/
def rfindIndex (l : List String) (s : String) : Int :=
  go l 0 (-1)
where
  /-- Scan left to right, remembering the latest hit. -/
  go : List String → Nat → Int → Int
  | [], _, acc => acc
  | a :: rest, i, acc => go rest (i + 1) (if a = s then (i : Int) else acc)

/-- `CoordinateSet::getIndex`: the index of the first coordinate with the given
name, or `-1` when absent. -/
def getIndexOfCoord (coords : List ModelCoordinate) (name : String) : Int :=
  go coords 0
where
  /-- Scan for the first name match. -/
  go : List ModelCoordinate → Nat → Int
  | [], _ => -1
  | c :: rest, i => if c.name = name then (i : Int) else go rest (i + 1)

/-- The initialisation of one `coordinateInfo` in `buildCoordinateMap`
(lines 661-677): `prescribed` comes solely from the model's own locked/constrained
flags, the task-related fields start as if the coordinate had no task, and the
constant experimental value defaults to the coordinate's default value. -/
def initCoordInfo (i : Nat) (c : ModelCoordinate) : coordinateInfo :=
  { coordIndex := i
    prescribed := c.locked || c.constrained
    experimentalColumn := -1
    constantExperimentalValue := c.defaultValue
    weight := 0
    experimentalValue := 0 }

/-- The first loop of `buildCoordinateMap`: one info per model coordinate, in
model order. -/
def initAllCoordinates (coords : List ModelCoordinate) : List coordinateInfo :=
  go coords 0
where
  /-- Build the infos with their coordinate indices. -/
  go : List ModelCoordinate → Nat → List coordinateInfo
  | [], _ => []
  | c :: rest, i => initCoordInfo i c :: go rest (i + 1)

/-- A default `coordinateInfo`, standing for the unchecked `allCoordinates[...]`
access (never reached on the in-range indices produced by `getIndexOfCoord`). -/
def dummyCoordInfo : coordinateInfo :=
  { coordIndex := 0, prescribed := false, experimentalColumn := -1
    constantExperimentalValue := 0, weight := 0, experimentalValue := 0 }

/-- Processing of one applied `IKCoordinateTask` (lines 686-707): resolve the
coordinate by name (fatal if absent), resolve the experimental column for
`FromFile` tasks (fatal if absent, and decremented by one for the time column),
record a `ManualValue` as the constant experimental value, and set the task's
weight. -/
def applyCoordinateTask (coords : List ModelCoordinate) (labels : List String)
    (all : List coordinateInfo) (t : IKCoordinateTask) :
    Except String (List coordinateInfo) :=
  let ci := getIndexOfCoord coords t.name
  if ci < 0 then
    .error ("IKTarget.buildCoordinateMap: ERROR- coordinate named in IKCoordinateTask not found in model")
  else
    let coordIndex := ci.toNat
    let info := all.getD coordIndex dummyCoordInfo
    let upd : Except String coordinateInfo :=
      match t.valueType with
      | IKValueType.FromFile =>
        let j := rfindIndex labels t.name
        if j < 0 then
          .error ("IKTarget.buildCoordinateMap: ERROR- coordinate task specifies from_file but no column found for this coordinate in coordinates file")
        else
          .ok { info with experimentalColumn := j - 1 }
      | IKValueType.ManualValue => .ok { info with constantExperimentalValue := t.value }
      | IKValueType.DefaultValue => .ok info
    upd.map fun info1 => all.set coordIndex { info1 with weight := t.weight }

/-- The task loop of `buildCoordinateMap` (lines 681-708): skip non-coordinate
tasks and tasks not marked apply, process the rest in order. -/
def applyTasks (coords : List ModelCoordinate) (labels : List String) :
    List IKTask → List coordinateInfo → Except String (List coordinateInfo)
  | [], all => .ok all
  | IKTask.marker :: rest, all => applyTasks coords labels rest all
  | IKTask.coordinate t :: rest, all =>
    if t.apply then
      match applyCoordinateTask coords labels all t with
      | .error e => .error e
      | .ok all1 => applyTasks coords labels rest all1
    else
      applyTasks coords labels rest all

/-- The final filtering loop of `buildCoordinateMap` (lines 710-722): prescribed
infos go to `_prescribedQs`, the rest to `_unprescribedQs`, and of those the ones
with nonzero weight additionally to `_unprescribedWeightedQs`, all in model
order. -/
def partitionCoordinates (all : List coordinateInfo) :
    List coordinateInfo × List coordinateInfo × List coordinateInfo :=
  match all with
  | [] => ([], [], [])
  | info :: rest =>
    let r := partitionCoordinates rest
    if info.prescribed then (info :: r.1, r.2.1, r.2.2)
    else (r.1, info :: r.2.1, if info.weight ≠ 0 then info :: r.2.2 else r.2.2)

/-- `IKTarget::buildCoordinateMap`: build the per-coordinate infos, apply the
coordinate tasks, and split into `(_prescribedQs, _unprescribedQs,
_unprescribedWeightedQs)`. -/
def buildCoordinateMap (coords : List ModelCoordinate) (tasks : List IKTask)
    (labels : List String) :
    Except String (List coordinateInfo × List coordinateInfo × List coordinateInfo) :=
  (applyTasks coords labels tasks (initAllCoordinates coords)).map partitionCoordinates

/-- One row of the experimental data storage (`StateVector`): the data values
(time column already stripped, as the stored column indices are) and, since `ℚ`
has no NaN, a parallel list recording which entries would be IEEE NaN. -/
structure StateVector where
  vals : List ℚ
  nan : List Bool
deriving DecidableEq, Repr

/-- `StateVector::getDataValue`. -/
def getDataValue (row : StateVector) (c : Nat) : ℚ := row.vals.getD c 0

/-- `rdMath::isNAN` applied to a data entry. -/
def dataIsNaN (row : StateVector) (c : Nat) : Bool := row.nan.getD c false

/-- The prescribed-coordinate loop of `IKTarget::prepareToSolve` (lines 543-558):
set each prescribed coordinate to its file value or constant experimental value
(the temporary unlocking around `setValue` only placates the engine's lock check
and is a no-op here). -/
def applyPrescribed (row : StateVector) :
    List coordinateInfo → List ℚ → List ℚ
  | [], qs => qs
  | info :: rest, qs =>
    let value :=
      if info.experimentalColumn ≥ 0 then getDataValue row info.experimentalColumn.toNat
      else info.constantExperimentalValue
    applyPrescribed row rest (qs.set info.coordIndex value)

/-- The initial guess for one unprescribed coordinate (lines 568-575): its file
value when it has an experimental column, else its current model value. -/
def unprescribedGuess (row : StateVector) (qs : List ℚ) (info : coordinateInfo) : ℚ :=
  if info.experimentalColumn ≥ 0 then getDataValue row info.experimentalColumn.toNat
  else qs.getD info.coordIndex 0

/-- The unprescribed-coordinate loop of `IKTarget::prepareToSolve` (lines
564-581): produce `qGuess` and, for the coordinates with nonzero weight, rebind
the per-frame experimental target (from the guess when file-sourced, else the
constant). -/
def bindUnprescribed (row : StateVector) (qs : List ℚ)
    (ups : List coordinateInfo) : List ℚ × List coordinateInfo :=
  (ups.map (unprescribedGuess row qs),
   ups.map fun info =>
     if info.weight ≠ 0 then
       { info with
         experimentalValue :=
           if info.experimentalColumn ≥ 0 then unprescribedGuess row qs info
           else info.constantExperimentalValue }
     else info)

/-- The marker loop of `IKTarget::prepareToSolve` (lines 587-604): read the three
experimental components from the marker's column triple, and flag the position
invalid when any component is NaN. -/
def bindMarkers (row : StateVector) (markers : List markerToSolve) :
    List markerToSolve :=
  markers.map fun m =>
    { m with
      experimentalPosition :=
        { x := getDataValue row m.experimentalColumn
          y := getDataValue row (m.experimentalColumn + 1)
          z := getDataValue row (m.experimentalColumn + 2) }
      validExperimentalPosition :=
        !(dataIsNaN row m.experimentalColumn ||
          dataIsNaN row (m.experimentalColumn + 1) ||
          dataIsNaN row (m.experimentalColumn + 2)) }

/-- `IKTarget::prepareToSolve`: apply the prescribed coordinates to the model,
compute the initial guesses and per-frame experimental targets for the
unprescribed coordinates, and rebind the experimental marker positions. -/
def prepareToSolve (s : TState) (row : StateVector) : List ℚ × TState :=
  let qs' := applyPrescribed row s.prescribedQs s.qs
  let gb := bindUnprescribed row qs' s.unprescribedQs
  (gb.1,
   { s with qs := qs', unprescribedQs := gb.2, markers := bindMarkers row s.markers })

/-- `IKTarget::getComputedMarkerLocations` (lines 770-775): append, for every
marker entry whether or not its experimental position is valid, the three
components of its stored `computedPosition`. -/
def getComputedMarkerLocations (markers : List markerToSolve) : List ℚ :=
  match markers with
  | [] => []
  | m :: rest =>
    m.computedPosition.x :: m.computedPosition.y :: m.computedPosition.z ::
      getComputedMarkerLocations rest

/-- Default marker used for out-of-range reads in statements (never reached at
in-range indices). -/
def mdefault : markerToSolve :=
  { weight := 0, experimentalColumn := 0
    experimentalPosition := ⟨0, 0, 0⟩, computedPosition := ⟨0, 0, 0⟩
    validExperimentalPosition := false }

/-- The contribution of the marker at index `i` to the scalar objective: its
weight times its squared componentwise error at the current model configuration,
zero when the experimental position is invalid. -/
def markerObjTerm (env : Env) (qs : List ℚ) (i : Nat) (m : markerToSolve) : ℚ :=
  if m.validExperimentalPosition then m.weight * markerSqError m (env.fk qs i) else 0

/-- The contribution of one weighted unprescribed coordinate to the scalar
objective. -/
def coordObjTerm (qs : List ℚ) (c : coordinateInfo) : ℚ :=
  c.weight * ((c.experimentalValue - qs.getD c.coordIndex 0) *
    (c.experimentalValue - qs.getD c.coordIndex 0))

/-- The accumulator of the marker loop of `objectiveFunc` computes the running
total plus the sum of the per-marker weighted squared errors. -/
theorem objMarkerLoop_total (env : Env) (qs : List ℚ) :
    ∀ (rest : List markerToSolve) (i : Nat) (acc : List markerToSolve)
      (tw tm mx : ℚ) (w : Int),
      (objMarkerLoop env qs rest i acc tw tm mx w).2.1 =
        tw + ∑ k in Finset.range rest.length,
          markerObjTerm env qs (i + k) (rest.getD k mdefault)
  | [], i, acc, tw, tm, mx, w => by simp [objMarkerLoop]
  | m :: rest, i, acc, tw, tm, mx, w => by
    by_cases hv : m.validExperimentalPosition
    · simp only [objMarkerLoop, hv, if_true]
      rw [objMarkerLoop_total env qs rest (i + 1)]
      rw [List.length_cons, Finset.sum_range_succ']
      simp only [List.getD_cons_succ, List.getD_cons_zero, markerObjTerm, hv, if_true,
        Nat.add_zero, Nat.add_assoc, Nat.add_comm 1]
      ring
    · simp only [objMarkerLoop, hv, Bool.false_eq_true, if_false]
      rw [objMarkerLoop_total env qs rest (i + 1)]
      rw [List.length_cons, Finset.sum_range_succ']
      simp only [List.getD_cons_succ, List.getD_cons_zero, markerObjTerm, hv,
        Bool.false_eq_true, if_false, Nat.add_zero, Nat.add_assoc, Nat.add_comm 1]
      ring

/-- The accumulator of the coordinate loop of `objectiveFunc` computes the
running total plus the sum of the per-coordinate weighted squared errors. -/
theorem objCoordLoop_total (qs : List ℚ) :
    ∀ (rest : List coordinateInfo) (i : Nat) (tw tc mx : ℚ) (w : Int),
      (objCoordLoop qs rest i tw tc mx w).1 =
        tw + (rest.map (coordObjTerm qs)).sum
  | [], i, tw, tc, mx, w => by simp [objCoordLoop]
  | c :: rest, i, tw, tc, mx, w => by
    simp only [objCoordLoop]
    rw [objCoordLoop_total qs rest (i + 1)]
    simp only [List.map_cons, List.sum_cons, coordObjTerm]
    ring

/-- C3: for every parameter vector `x`, with the cancellation flag clear,
`objectiveFunc` returns status 0 and the objective `f` equal to the sum, over
markers with a valid experimental position, of the marker's weight times the
squared componentwise difference between `experimentalPosition` and the computed
position obtained from forward kinematics at `x`, plus the sum over the weighted
unprescribed coordinates of the coordinate's weight times the squared difference
between its experimental value and its current value; markers with an invalid
experimental position contribute zero. -/
theorem objectiveFunc_weighted_sum (env : Env) (s : TState) (x : List ℚ)
    (h : s.interrupted = false) :
    ∃ s' : TState,
      objectiveFunc env s x =
        .ok (0,
          (∑ i in Finset.range s.markers.length,
            markerObjTerm env (setCoordValues s.unprescribedQs x s.qs) i
              (s.markers.getD i mdefault)) +
          ((weightedQs s.unprescribedQs).map
            (coordObjTerm (setCoordValues s.unprescribedQs x s.qs))).sum,
          s') := by
  refine ⟨(objectiveEval env s x).2, ?_⟩
  simp only [objectiveFunc, h, Bool.false_eq_true, if_false]
  simp only [objectiveEval]
  rw [objCoordLoop_total, objMarkerLoop_total]
  simp

/-- Concrete instantiation witnessing `objectiveFunc_weighted_sum`: a state with
one valid and one invalid marker and one weighted coordinate. -/
def sC3 : TState :=
  { markers :=
      [{ weight := 2, experimentalColumn := 0
         experimentalPosition := ⟨1, 2, 3⟩, computedPosition := ⟨7, 7, 7⟩
         validExperimentalPosition := true },
       { weight := 5, experimentalColumn := 3
         experimentalPosition := ⟨0, 0, 0⟩, computedPosition := ⟨9, 9, 9⟩
         validExperimentalPosition := false }]
    prescribedQs := []
    unprescribedQs :=
      [{ coordIndex := 0, prescribed := false, experimentalColumn := -1
         constantExperimentalValue := 0, weight := 3, experimentalValue := 4 }]
    qs := [0]
    dx := [perturbation]
    interrupted := false }

/-- A concrete environment shared by the witnesses. -/
def envW : Env :=
  { sqrt := fun q => q
    fk := fun qs _ => ⟨qs.getD 0 0, 0, 0⟩
    solveLLS := fun _ _ => ([0], 1) }

/-- Witness for C3 at a concrete input. -/
theorem objectiveFunc_weighted_sum_witness :
    sC3.interrupted = false ∧
    ∃ s' : TState,
      objectiveFunc envW sC3 [6] =
        .ok (0,
          (∑ i in Finset.range sC3.markers.length,
            markerObjTerm envW (setCoordValues sC3.unprescribedQs [6] sC3.qs) i
              (sC3.markers.getD i mdefault)) +
          ((weightedQs sC3.unprescribedQs).map
            (coordObjTerm (setCoordValues sC3.unprescribedQs [6] sC3.qs))).sum,
          s') :=
  ⟨rfl, objectiveFunc_weighted_sum envW sC3 [6] rfl⟩


/-- The backtracking loop accepts immediately (with any fuel) when the trial norm
does not exceed the previous accepted norm. -/
theorem backtrackLoop_done (env : Env) (ups : List coordinateInfo)
    (results : List ℚ) (fuel : Nat) (dQ qs : List ℚ)
    (markers : List markerToSolve) (dErr : List ℚ) (temp previous : ℚ)
    (h : ¬ temp > previous) :
    backtrackLoop env ups results fuel dQ qs markers dErr temp previous =
      some ⟨dQ, qs, markers, dErr, temp⟩ := by
  cases fuel <;> simp [backtrackLoop, h]

/-- The outer solver loop exits immediately (with any fuel) once its guard
`deltaDErrorNorm > errorTol && iter < maxIter` fails. -/
theorem solverLoop_stop (env : Env) (ups : List coordinateInfo) (dx : List ℚ)
    (bfuel fuel : Nat) (st : SState)
    (h : ¬ (st.delta > errTol ∧ st.iter < maxIter)) :
    solverLoop env ups dx bfuel fuel st = some st := by
  cases fuel <;> simp only [solverLoop, if_neg h]

/-- One unrolling of the outer solver loop while its guard holds. -/
theorem solverLoop_step (env : Env) (ups : List coordinateInfo) (dx : List ℚ)
    (bfuel fuel : Nat) (st : SState)
    (h : st.delta > errTol ∧ st.iter < maxIter) :
    solverLoop env ups dx bfuel (fuel + 1) st =
      (outerStep env ups dx bfuel st).bind (solverLoop env ups dx bfuel fuel) := by
  simp only [solverLoop, if_pos h]
  cases outerStep env ups dx bfuel st <;> rfl

/-- The first unrolling of the outer solver loop at its initial fuel `maxIter`. -/
theorem solverLoop_start (env : Env) (ups : List coordinateInfo) (dx : List ℚ)
    (bfuel : Nat) (st : SState)
    (h : st.delta > errTol ∧ st.iter < maxIter) :
    solverLoop env ups dx bfuel maxIter st =
      (outerStep env ups dx bfuel st).bind (solverLoop env ups dx bfuel 999) :=
  solverLoop_step env ups dx bfuel 999 st h

/-- The single valid marker of the concrete interrupted run. -/
def mC2 : markerToSolve :=
  { weight := 2, experimentalColumn := 0
    experimentalPosition := ⟨1, 2, 3⟩, computedPosition := ⟨7, 7, 7⟩
    validExperimentalPosition := true }

/-- Concrete interrupted state: one valid marker, no unprescribed coordinates,
cancellation flag set. -/
def sC2 : TState :=
  { markers := [mC2], prescribedQs := [], unprescribedQs := []
    qs := [], dx := [], interrupted := true }

/-- Counterexample to C2: with `_interrupted` set, the residual evaluations
inside `iterativeOptimization` do not fail with the interrupted condition; the
solver runs to completion (status 0 after one iteration) and its residual
evaluation overwrites the valid marker's `computedPosition` from `(7,7,7)` to
the freshly computed `(0,0,0)`, so the claimed fail-fast before mutation does
not hold on this path. -/
theorem iterativeOptimization_ignores_interrupted_cex :
    sC2.interrupted = true ∧
    iterativeOptimization envW 5 sC2 [] =
      some (0, 1, [], { sC2 with markers := [{ mC2 with computedPosition := ⟨0, 0, 0⟩ }] }) ∧
    ({ mC2 with computedPosition := ⟨0, 0, 0⟩ } : markerToSolve) ≠ mC2 := by
  refine ⟨rfl, ?_, by decide⟩
  simp only [iterativeOptimization]
  norm_num [sC2, mC2, envW, weightedQs, setCoordValues, setCoordValues.go,
    computeDError, dErrMarkerPass, dErrQPass, dnorm, List.replicate]
  rw [solverLoop_start _ _ _ _ _ (by constructor <;> norm_num [errTol, maxIter])]
  norm_num [outerStep, createJacobian, jacLoop, markerWeights, addVec, computeDError,
    dErrMarkerPass, dErrQPass, dnorm, envW, setCoordValues, setCoordValues.go,
    backtrackLoop_done]
  rw [solverLoop_stop _ _ _ _ _ _ (by norm_num [errTol])]
  norm_num

/-- C2 (amended): only `objectiveFunc` observes the cancellation flag — whenever
`_interrupted` is true it fails immediately with the interrupted condition,
before applying any parameter or mutating any marker or model state; the residual
evaluations inlined in `iterativeOptimization` never consult the flag, so the
iterative solver behaves identically whatever the flag's value (only the flag
itself is carried through unchanged to the returned state). -/
theorem interrupted_checked_only_by_objectiveFunc :
    (∀ (env : Env) (s : TState) (x : List ℚ), s.interrupted = true →
      objectiveFunc env s x = .error ()) ∧
    (∀ (env : Env) (bfuel : Nat) (s : TState) (results : List ℚ) (b : Bool),
      iterativeOptimization env bfuel { s with interrupted := b } results =
        (iterativeOptimization env bfuel { s with interrupted := false } results).map
          (fun out => (out.1, out.2.1, out.2.2.1,
            { out.2.2.2 with interrupted := b }))) := by
  constructor
  · intro env s x h
    simp [objectiveFunc, h]
  · intro env bfuel s results b
    simp only [iterativeOptimization]
    cases solverLoop env s.unprescribedQs s.dx bfuel maxIter _ <;> rfl

/-- Witness for the amended C2 at a concrete input. -/
theorem interrupted_checked_only_by_objectiveFunc_witness :
    sC2.interrupted = true ∧ objectiveFunc envW sC2 [] = .error () :=
  ⟨rfl, interrupted_checked_only_by_objectiveFunc.1 envW sC2 [] rfl⟩

/-- Writing one list slot leaves every other slot unchanged. -/
theorem getD_set_ne {α : Type} (l : List α) (i j : Nat) (v d : α) (h : i ≠ j) :
    (l.set i v).getD j d = l.getD j d := by
  simp [List.getD_eq_getElem?_getD, List.getElem?_set_ne h]

/-- Writing an in-range list slot stores the value there. -/
theorem getD_set_self {α : Type} (l : List α) (i : Nat) (v d : α)
    (h : i < l.length) :
    (l.set i v).getD i d = v := by
  simp [List.getD_eq_getElem?_getD, List.getElem?_set_self, h]

/-- The marker loop of `objectiveFunc` preserves the length of the marker
table. -/
theorem objMarkerLoop_acc_length (env : Env) (qs : List ℚ) :
    ∀ (rest : List markerToSolve) (i : Nat) (acc : List markerToSolve)
      (tw tm mx : ℚ) (w : Int),
      (objMarkerLoop env qs rest i acc tw tm mx w).1.length = acc.length
  | [], i, acc, tw, tm, mx, w => by simp [objMarkerLoop]
  | m :: rest, i, acc, tw, tm, mx, w => by
    by_cases hv : m.validExperimentalPosition <;>
      simp only [objMarkerLoop, hv, Bool.false_eq_true, if_true, if_false] <;>
      rw [objMarkerLoop_acc_length env qs rest (i + 1)] <;>
      simp

/-- The marker loop of `objectiveFunc` never writes a table slot whose marker is
invalid at that slot's index. -/
theorem objMarkerLoop_acc_stable (env : Env) (qs : List ℚ) :
    ∀ (rest : List markerToSolve) (i : Nat) (acc : List markerToSolve)
      (tw tm mx : ℚ) (w : Int) (j : Nat),
      (∀ k, k < rest.length → i + k = j →
        (rest.getD k mdefault).validExperimentalPosition = false) →
      (objMarkerLoop env qs rest i acc tw tm mx w).1.getD j mdefault =
        acc.getD j mdefault
  | [], i, acc, tw, tm, mx, w, j, h => by simp [objMarkerLoop]
  | m :: rest, i, acc, tw, tm, mx, w, j, h => by
    have hshift : ∀ k, k < rest.length → (i + 1) + k = j →
        (rest.getD k mdefault).validExperimentalPosition = false := by
      intro k hk he
      have := h (k + 1) (by simpa using Nat.succ_lt_succ hk) (by omega)
      simpa [List.getD_cons_succ] using this
    by_cases hv : m.validExperimentalPosition
    · have hij : i ≠ j := by
        intro e
        have := h 0 (by simp) (by omega)
        rw [List.getD_cons_zero] at this
        rw [hv] at this
        exact Bool.true_eq_false.mp this
      simp only [objMarkerLoop, hv, if_true]
      rw [objMarkerLoop_acc_stable env qs rest (i + 1) _ _ _ _ _ j hshift]
      exact getD_set_ne acc i j _ mdefault hij
    · simp only [objMarkerLoop, hv, Bool.false_eq_true, if_false]
      exact objMarkerLoop_acc_stable env qs rest (i + 1) acc tw tm mx w j hshift

/-- The marker block of the solver's residual evaluation preserves the length of
the marker table. -/
theorem dErrMarkerPass_acc_length (env : Env) (qs : List ℚ) :
    ∀ (rest : List markerToSolve) (i : Nat) (acc : List markerToSolve)
      (d : List ℚ),
      (dErrMarkerPass env qs rest i acc d).1.length = acc.length
  | [], i, acc, d => by simp [dErrMarkerPass]
  | m :: rest, i, acc, d => by
    by_cases hv : m.validExperimentalPosition <;>
      simp only [dErrMarkerPass, hv, Bool.false_eq_true, if_true, if_false] <;>
      rw [dErrMarkerPass_acc_length env qs rest (i + 1)] <;>
      simp

/-- The marker block of the solver's residual evaluation never writes a table
slot whose marker is invalid at that slot's index. -/
theorem dErrMarkerPass_acc_stable (env : Env) (qs : List ℚ) :
    ∀ (rest : List markerToSolve) (i : Nat) (acc : List markerToSolve)
      (d : List ℚ) (j : Nat),
      (∀ k, k < rest.length → i + k = j →
        (rest.getD k mdefault).validExperimentalPosition = false) →
      (dErrMarkerPass env qs rest i acc d).1.getD j mdefault =
        acc.getD j mdefault
  | [], i, acc, d, j, h => by simp [dErrMarkerPass]
  | m :: rest, i, acc, d, j, h => by
    have hshift : ∀ k, k < rest.length → (i + 1) + k = j →
        (rest.getD k mdefault).validExperimentalPosition = false := by
      intro k hk he
      have := h (k + 1) (by simpa using Nat.succ_lt_succ hk) (by omega)
      simpa [List.getD_cons_succ] using this
    by_cases hv : m.validExperimentalPosition
    · have hij : i ≠ j := by
        intro e
        have := h 0 (by simp) (by omega)
        rw [List.getD_cons_zero] at this
        rw [hv] at this
        exact Bool.true_eq_false.mp this
      simp only [dErrMarkerPass, hv, if_true]
      rw [dErrMarkerPass_acc_stable env qs rest (i + 1) _ _ j hshift]
      exact getD_set_ne acc i j _ mdefault hij
    · simp only [dErrMarkerPass, hv, Bool.false_eq_true, if_false]
      exact dErrMarkerPass_acc_stable env qs rest (i + 1) acc d j hshift

/-- A full solver residual evaluation preserves the marker-table length. -/
theorem computeDError_markers_length (env : Env) (markers : List markerToSolve)
    (ups : List coordinateInfo) (qs d : List ℚ) :
    (computeDError env markers ups qs d).1.length = markers.length := by
  simp only [computeDError]
  exact dErrMarkerPass_acc_length env qs markers 0 markers d

/-- A full solver residual evaluation leaves the table entry of an invalid
marker untouched. -/
theorem computeDError_markers_stable (env : Env) (markers : List markerToSolve)
    (ups : List coordinateInfo) (qs d : List ℚ) (j : Nat)
    (h : (markers.getD j mdefault).validExperimentalPosition = false) :
    (computeDError env markers ups qs d).1.getD j mdefault =
      markers.getD j mdefault := by
  simp only [computeDError]
  refine dErrMarkerPass_acc_stable env qs markers 0 markers d j ?_
  intro k hk he
  have hkj : k = j := by omega
  rw [hkj]
  exact h

/-- The backtracking loop preserves the marker-table length. -/
theorem backtrackLoop_markers_length (env : Env) (ups : List coordinateInfo)
    (results : List ℚ) :
    ∀ (fuel : Nat) (dQ qs : List ℚ) (markers : List markerToSolve)
      (dErr : List ℚ) (temp previous : ℚ) (out : BTOut),
      backtrackLoop env ups results fuel dQ qs markers dErr temp previous = some out →
      out.markers.length = markers.length
  | 0, dQ, qs, markers, dErr, temp, previous, out => by
    by_cases hc : temp > previous <;> simp [backtrackLoop, hc]
    intro h
    rw [← h]
  | fuel + 1, dQ, qs, markers, dErr, temp, previous, out => by
    by_cases hc : temp > previous
    · simp only [backtrackLoop, if_pos hc]
      intro h
      rw [backtrackLoop_markers_length env ups results fuel _ _ _ _ _ _ out h]
      exact computeDError_markers_length env markers ups _ _
    · simp [backtrackLoop, hc]
      intro h
      rw [← h]

/-- The backtracking loop leaves the table entry of an invalid marker
untouched. -/
theorem backtrackLoop_markers_stable (env : Env) (ups : List coordinateInfo)
    (results : List ℚ) :
    ∀ (fuel : Nat) (dQ qs : List ℚ) (markers : List markerToSolve)
      (dErr : List ℚ) (temp previous : ℚ) (out : BTOut) (j : Nat),
      backtrackLoop env ups results fuel dQ qs markers dErr temp previous = some out →
      (markers.getD j mdefault).validExperimentalPosition = false →
      out.markers.getD j mdefault = markers.getD j mdefault
  | 0, dQ, qs, markers, dErr, temp, previous, out, j => by
    by_cases hc : temp > previous <;> simp [backtrackLoop, hc]
    intro h hv
    rw [← h]
  | fuel + 1, dQ, qs, markers, dErr, temp, previous, out, j => by
    by_cases hc : temp > previous
    · simp only [backtrackLoop, if_pos hc]
      intro h hv
      have hstep := computeDError_markers_stable env markers ups
        (setCoordValues ups (addVec results (dQ.map (fun v => v * (1 / 2)))) qs) dErr j hv
      have hv' : ((computeDError env markers ups
          (setCoordValues ups (addVec results (dQ.map (fun v => v * (1 / 2)))) qs)
          dErr).1.getD j mdefault).validExperimentalPosition = false := by
        rw [hstep]; exact hv
      rw [backtrackLoop_markers_stable env ups results fuel _ _ _ _ _ _ out j h hv']
      exact hstep
    · simp [backtrackLoop, hc]
      intro h hv
      rw [← h]

/-- One outer solver iteration preserves the marker-table length. -/
theorem outerStep_markers_length (env : Env) (ups : List coordinateInfo)
    (dx : List ℚ) (bfuel : Nat) (st st' : SState)
    (h : outerStep env ups dx bfuel st = some st') :
    st'.markers.length = st.markers.length := by
  simp only [outerStep, Option.map_eq_some'] at h
  obtain ⟨out, hbt, hst⟩ := h
  rw [← hst]
  rw [backtrackLoop_markers_length env ups st.results _ _ _ _ _ _ _ out hbt]
  exact computeDError_markers_length env st.markers ups _ _

/-- One outer solver iteration leaves the table entry of an invalid marker
untouched. -/
theorem outerStep_markers_stable (env : Env) (ups : List coordinateInfo)
    (dx : List ℚ) (bfuel : Nat) (st st' : SState) (j : Nat)
    (h : outerStep env ups dx bfuel st = some st')
    (hv : (st.markers.getD j mdefault).validExperimentalPosition = false) :
    st'.markers.getD j mdefault = st.markers.getD j mdefault := by
  simp only [outerStep, Option.map_eq_some'] at h
  obtain ⟨out, hbt, hst⟩ := h
  have hstep := computeDError_markers_stable env st.markers ups
    (setCoordValues ups (addVec st.results
      (env.solveLLS (createJacobian env st.markers ups st.qs dx st.results st.J).2 st.dErr).1)
      (createJacobian env st.markers ups st.qs dx st.results st.J).1) st.dErr j hv
  have hv' := hv
  rw [← hstep] at hv'
  rw [← hst]
  have hchain := backtrackLoop_markers_stable env ups st.results bfuel _ _ _ _ _ _ out j hbt hv'
  show out.markers.getD j mdefault = st.markers.getD j mdefault
  rw [hchain]
  exact hstep

/-- The outer solver loop preserves the marker-table length. -/
theorem solverLoop_markers_length (env : Env) (ups : List coordinateInfo)
    (dx : List ℚ) (bfuel : Nat) :
    ∀ (fuel : Nat) (st st' : SState),
      solverLoop env ups dx bfuel fuel st = some st' →
      st'.markers.length = st.markers.length
  | 0, st, st' => by
    simp [solverLoop]
    intro h
    rw [← h]
  | fuel + 1, st, st' => by
    by_cases hg : st.delta > errTol ∧ st.iter < maxIter
    · simp only [solverLoop, if_pos hg]
      cases hstep : outerStep env ups dx bfuel st with
      | none => intro h; cases h
      | some st1 =>
        intro h
        rw [solverLoop_markers_length env ups dx bfuel fuel st1 st' h]
        exact outerStep_markers_length env ups dx bfuel st st1 hstep
    · simp only [solverLoop, if_neg hg, Option.some.injEq]
      intro h
      rw [← h]

/-- The outer solver loop leaves the table entry of an invalid marker
untouched. -/
theorem solverLoop_markers_stable (env : Env) (ups : List coordinateInfo)
    (dx : List ℚ) (bfuel : Nat) :
    ∀ (fuel : Nat) (st st' : SState) (j : Nat),
      solverLoop env ups dx bfuel fuel st = some st' →
      (st.markers.getD j mdefault).validExperimentalPosition = false →
      st'.markers.getD j mdefault = st.markers.getD j mdefault
  | 0, st, st', j => by
    simp [solverLoop]
    intro h hv
    rw [← h]
  | fuel + 1, st, st', j => by
    by_cases hg : st.delta > errTol ∧ st.iter < maxIter
    · simp only [solverLoop, if_pos hg]
      cases hstep : outerStep env ups dx bfuel st with
      | none => intro h; cases h
      | some st1 =>
        intro h hv
        have hone := outerStep_markers_stable env ups dx bfuel st st1 j hstep hv
        have hv1 : (st1.markers.getD j mdefault).validExperimentalPosition = false := by
          rw [hone]; exact hv
        rw [solverLoop_markers_stable env ups dx bfuel fuel st1 st' j h hv1]
        exact hone
    · simp only [solverLoop, if_neg hg, Option.some.injEq]
      intro h hv
      rw [← h]

/-- Index correspondence of `getComputedMarkerLocations`: entry `3*i + r` of the
returned array is component `r` of marker `i`'s stored `computedPosition`. -/
theorem getComputedMarkerLocations_getD :
    ∀ (markers : List markerToSolve) (i r : Nat), i < markers.length → r < 3 →
      (getComputedMarkerLocations markers).getD (3 * i + r) 0 =
        (markers.getD i mdefault).computedPosition.nth r
  | [], i, r, hi, hr => by simp at hi
  | m :: rest, 0, r, hi, hr => by
    interval_cases r <;>
      simp [getComputedMarkerLocations, Vec3.nth, List.getD_cons_zero, List.getD_cons_succ]
  | m :: rest, i + 1, r, hi, hr => by
    have h3 : 3 * (i + 1) + r = 3 * i + r + 1 + 1 + 1 := by ring
    rw [h3]
    simp only [getComputedMarkerLocations, List.getD_cons_succ]
    exact getComputedMarkerLocations_getD rest i r (by simpa using Nat.lt_of_succ_lt_succ hi) hr

/-- C10: a marker whose `validExperimentalPosition` is false at the current frame
has its `computedPosition` written by no residual evaluation — neither
`objectiveFunc` nor the evaluations inside `iterativeOptimization` touch its
table entry, which retains whatever value it held before — and
`getComputedMarkerLocations` nevertheless appends those three stale components
at the marker's slots, indistinguishable from freshly computed positions. -/
theorem staleComputedMarkerLocations (env : Env) (s : TState) (i : Nat)
    (hv : (s.markers.getD i mdefault).validExperimentalPosition = false)
    (hi : i < s.markers.length) (hint : s.interrupted = false) :
    (∀ x : List ℚ, ∃ f s', objectiveFunc env s x = .ok (0, f, s') ∧
        s'.markers.getD i mdefault = s.markers.getD i mdefault ∧
        ∀ r, r < 3 →
          (getComputedMarkerLocations s'.markers).getD (3 * i + r) 0 =
            (s.markers.getD i mdefault).computedPosition.nth r) ∧
    (∀ (bfuel : Nat) (results : List ℚ) (out : Int × Nat × List ℚ × TState),
        iterativeOptimization env bfuel s results = some out →
        out.2.2.2.markers.getD i mdefault = s.markers.getD i mdefault ∧
        ∀ r, r < 3 →
          (getComputedMarkerLocations out.2.2.2.markers).getD (3 * i + r) 0 =
            (s.markers.getD i mdefault).computedPosition.nth r) := by
  have hvcond : ∀ k, k < s.markers.length → 0 + k = i →
      (s.markers.getD k mdefault).validExperimentalPosition = false := by
    intro k hk he
    have : k = i := by omega
    rw [this]
    exact hv
  constructor
  · intro x
    refine ⟨(objectiveEval env s x).1, (objectiveEval env s x).2, ?_, ?_, ?_⟩
    · simp [objectiveFunc, hint]
    · simp only [objectiveEval]
      exact objMarkerLoop_acc_stable env _ s.markers 0 s.markers 0 0 0 (-1) i hvcond
    · intro r hr
      have hlen : i < (objectiveEval env s x).2.markers.length := by
        simp only [objectiveEval]
        rw [objMarkerLoop_acc_length]
        exact hi
      rw [getComputedMarkerLocations_getD _ i r hlen hr]
      simp only [objectiveEval]
      rw [objMarkerLoop_acc_stable env _ s.markers 0 s.markers 0 0 0 (-1) i hvcond]
  · intro bfuel results out hout
    simp only [iterativeOptimization, Option.map_eq_some'] at hout
    obtain ⟨st, hloop, hfout⟩ := hout
    have hC := computeDError_markers_stable env s.markers s.unprescribedQs
      (setCoordValues s.unprescribedQs results s.qs)
      (List.replicate (3 * s.markers.length + (weightedQs s.unprescribedQs).length) 0) i hv
    have hv0 := hv
    rw [← hC] at hv0
    have hchain := solverLoop_markers_stable env s.unprescribedQs s.dx bfuel maxIter _ st i
      hloop hv0
    have hmk : st.markers.getD i mdefault = s.markers.getD i mdefault := by
      rw [hchain]; exact hC
    have hlen : i < st.markers.length := by
      rw [solverLoop_markers_length env s.unprescribedQs s.dx bfuel maxIter _ st hloop]
      show i < (computeDError env s.markers s.unprescribedQs
        (setCoordValues s.unprescribedQs results s.qs)
        (List.replicate (3 * s.markers.length + (weightedQs s.unprescribedQs).length) 0)).1.length
      rw [computeDError_markers_length]
      exact hi
    rw [← hfout]
    refine ⟨hmk, ?_⟩
    intro r hr
    show (getComputedMarkerLocations st.markers).getD (3 * i + r) 0 =
      (s.markers.getD i mdefault).computedPosition.nth r
    rw [getComputedMarkerLocations_getD st.markers i r hlen hr, hmk]

/-- Concrete state with a single invalid marker, for the C10 witness. -/
def sC10 : TState :=
  { markers := [{ mC2 with validExperimentalPosition := false }]
    prescribedQs := [], unprescribedQs := [], qs := [], dx := []
    interrupted := false }

/-- Witness for C10 at a concrete input. -/
theorem staleComputedMarkerLocations_witness :
    (sC10.markers.getD 0 mdefault).validExperimentalPosition = false ∧
    0 < sC10.markers.length ∧
    sC10.interrupted = false ∧
    ((∀ x : List ℚ, ∃ f s', objectiveFunc envW sC10 x = .ok (0, f, s') ∧
        s'.markers.getD 0 mdefault = sC10.markers.getD 0 mdefault ∧
        ∀ r, r < 3 →
          (getComputedMarkerLocations s'.markers).getD (3 * 0 + r) 0 =
            (sC10.markers.getD 0 mdefault).computedPosition.nth r) ∧
    (∀ (bfuel : Nat) (results : List ℚ) (out : Int × Nat × List ℚ × TState),
        iterativeOptimization envW bfuel sC10 results = some out →
        out.2.2.2.markers.getD 0 mdefault = sC10.markers.getD 0 mdefault ∧
        ∀ r, r < 3 →
          (getComputedMarkerLocations out.2.2.2.markers).getD (3 * 0 + r) 0 =
            (sC10.markers.getD 0 mdefault).computedPosition.nth r)) :=
  ⟨rfl, by decide, rfl, staleComputedMarkerLocations envW sC10 0 rfl (by decide) rfl⟩

/-- Unfolding of the weighted-coordinate subset view over a cons cell. -/
theorem weightedQs_cons (c : coordinateInfo) (rest : List coordinateInfo) :
    weightedQs (c :: rest) =
      if c.weight ≠ 0 then c :: weightedQs rest else weightedQs rest := by
  by_cases h : c.weight = 0 <;> simp [weightedQs, List.filter_cons, h]

/-- The solver's marker residual block preserves the length of `dError`. -/
theorem dErrMarkerPass_d_length (env : Env) (qs : List ℚ) :
    ∀ (rest : List markerToSolve) (i0 : Nat) (acc : List markerToSolve)
      (d : List ℚ),
      (dErrMarkerPass env qs rest i0 acc d).2.length = d.length
  | [], i0, acc, d => by simp [dErrMarkerPass]
  | m :: rest, i0, acc, d => by
    by_cases hv : m.validExperimentalPosition <;>
      simp only [dErrMarkerPass, hv, Bool.false_eq_true, if_true, if_false] <;>
      rw [dErrMarkerPass_d_length env qs rest (i0 + 1)] <;>
      simp

/-- The solver's marker residual block leaves every `dError` row outside its own
index range `[3*i0, 3*(i0+|rest|))` unchanged. -/
theorem dErrMarkerPass_d_frozen (env : Env) (qs : List ℚ) :
    ∀ (rest : List markerToSolve) (i0 : Nat) (acc : List markerToSolve)
      (d : List ℚ) (j : Nat),
      (j < 3 * i0 ∨ 3 * (i0 + rest.length) ≤ j) →
      (dErrMarkerPass env qs rest i0 acc d).2.getD j 0 = d.getD j 0
  | [], i0, acc, d, j, h => by simp [dErrMarkerPass]
  | m :: rest, i0, acc, d, j, h => by
    rw [List.length_cons] at h
    have hrec : j < 3 * (i0 + 1) ∨ 3 * ((i0 + 1) + rest.length) ≤ j := by omega
    by_cases hv : m.validExperimentalPosition
    · simp only [dErrMarkerPass, hv, if_true]
      rw [dErrMarkerPass_d_frozen env qs rest (i0 + 1) _ _ j hrec]
      rw [getD_set_ne _ _ _ _ _ (by omega), getD_set_ne _ _ _ _ _ (by omega),
        getD_set_ne _ _ _ _ _ (by omega)]
    · simp only [dErrMarkerPass, hv, Bool.false_eq_true, if_false]
      exact dErrMarkerPass_d_frozen env qs rest (i0 + 1) acc d j hrec

/-- Row `3*(i0+k)+r` of `dError` after the solver's marker residual block: for a
valid marker the weighted componentwise forward-kinematics error, for an invalid
marker the row is untouched. -/
theorem dErrMarkerPass_d_at (env : Env) (qs : List ℚ) :
    ∀ (rest : List markerToSolve) (i0 : Nat) (acc : List markerToSolve)
      (d : List ℚ) (k r : Nat),
      k < rest.length → r < 3 → 3 * (i0 + rest.length) ≤ d.length →
      (dErrMarkerPass env qs rest i0 acc d).2.getD (3 * (i0 + k) + r) 0 =
        (if (rest.getD k mdefault).validExperimentalPosition then
          env.sqrt (rest.getD k mdefault).weight *
            ((rest.getD k mdefault).experimentalPosition.nth r -
              (env.fk qs (i0 + k)).nth r)
        else d.getD (3 * (i0 + k) + r) 0)
  | [], i0, acc, d, k, r, hk, hr, hd => by simp at hk
  | m :: rest, i0, acc, d, k, r, hk, hr, hd => by
    rw [List.length_cons] at hd
    rw [List.length_cons] at hk
    match k with
    | 0 =>
      simp only [List.getD_cons_zero, Nat.add_zero]
      by_cases hv : m.validExperimentalPosition
      · simp only [dErrMarkerPass, hv, if_true]
        rw [dErrMarkerPass_d_frozen env qs rest (i0 + 1) _ _ _ (Or.inl (by omega))]
        interval_cases r
        · have h0 : 3 * i0 + 0 = 3 * i0 := Nat.add_zero _
          rw [h0]
          rw [getD_set_ne _ _ _ _ _ (by omega), getD_set_ne _ _ _ _ _ (by omega),
            getD_set_self _ _ _ _ (by omega)]
          simp [Vec3.nth]
        · rw [getD_set_ne _ _ _ _ _ (by omega),
            getD_set_self _ _ _ _ (by simp only [List.length_set]; omega)]
          simp [Vec3.nth]
        · rw [getD_set_self _ _ _ _ (by simp only [List.length_set]; omega)]
          simp [Vec3.nth]
      · simp only [dErrMarkerPass, hv, Bool.false_eq_true, if_false]
        exact dErrMarkerPass_d_frozen env qs rest (i0 + 1) acc d _ (Or.inl (by omega))
    | k + 1 =>
      have hidx : 3 * (i0 + (k + 1)) + r = 3 * ((i0 + 1) + k) + r := by ring_nf
      rw [hidx]
      simp only [List.getD_cons_succ]
      by_cases hv : m.validExperimentalPosition
      · simp only [dErrMarkerPass, hv, if_true]
        rw [dErrMarkerPass_d_at env qs rest (i0 + 1) _ _ k r (by omega) hr
          (by simp only [List.length_set]; omega)]
        rw [getD_set_ne _ _ _ _ _ (by omega), getD_set_ne _ _ _ _ _ (by omega),
          getD_set_ne _ _ _ _ _ (by omega)]
        rw [show i0 + 1 + k = i0 + (k + 1) from by omega]
      · simp only [dErrMarkerPass, hv, Bool.false_eq_true, if_false]
        rw [dErrMarkerPass_d_at env qs rest (i0 + 1) acc d k r (by omega) hr (by omega)]
        rw [show i0 + 1 + k = i0 + (k + 1) from by omega]

/-- The solver's coordinate residual block preserves the length of `dError`. -/
theorem dErrQPass_length (env : Env) (qs : List ℚ) :
    ∀ (rest : List coordinateInfo) (row0 : Nat) (d : List ℚ),
      (dErrQPass env qs rest row0 d).length = d.length
  | [], row0, d => by simp [dErrQPass]
  | c :: rest, row0, d => by
    by_cases hw : c.weight ≠ 0
    · simp only [dErrQPass, if_pos hw]
      rw [dErrQPass_length env qs rest (row0 + 1)]
      simp
    · simp only [dErrQPass, if_neg hw]
      exact dErrQPass_length env qs rest row0 d

/-- The solver's coordinate residual block leaves every `dError` row outside
`[row0, row0 + |weighted rest|)` unchanged: it writes exactly one row per
nonzero-weight coordinate. -/
theorem dErrQPass_frozen (env : Env) (qs : List ℚ) :
    ∀ (rest : List coordinateInfo) (row0 : Nat) (d : List ℚ) (j : Nat),
      (j < row0 ∨ row0 + (weightedQs rest).length ≤ j) →
      (dErrQPass env qs rest row0 d).getD j 0 = d.getD j 0
  | [], row0, d, j, h => by simp [dErrQPass]
  | c :: rest, row0, d, j, h => by
    by_cases hw : c.weight ≠ 0
    · rw [weightedQs_cons, if_pos hw, List.length_cons] at h
      simp only [dErrQPass, if_pos hw]
      rw [dErrQPass_frozen env qs rest (row0 + 1) _ j (by omega)]
      exact getD_set_ne _ _ _ _ _ (by omega)
    · rw [weightedQs_cons, if_neg hw] at h
      simp only [dErrQPass, if_neg hw]
      exact dErrQPass_frozen env qs rest row0 d j h

/-- Row `row0 + k` of `dError` after the solver's coordinate residual block is
the weighted error of the `k`-th nonzero-weight unprescribed coordinate, in
parameter order. -/
theorem dErrQPass_at (env : Env) (qs : List ℚ) :
    ∀ (rest : List coordinateInfo) (row0 : Nat) (d : List ℚ) (k : Nat),
      k < (weightedQs rest).length →
      row0 + (weightedQs rest).length ≤ d.length →
      (dErrQPass env qs rest row0 d).getD (row0 + k) 0 =
        env.sqrt ((weightedQs rest).getD k dummyCoordInfo).weight *
          (((weightedQs rest).getD k dummyCoordInfo).experimentalValue -
            qs.getD ((weightedQs rest).getD k dummyCoordInfo).coordIndex 0)
  | [], row0, d, k, hk, hd => by simp [weightedQs] at hk
  | c :: rest, row0, d, k, hk, hd => by
    by_cases hw : c.weight ≠ 0
    · rw [weightedQs_cons, if_pos hw, List.length_cons] at hk
      rw [weightedQs_cons, if_pos hw, List.length_cons] at hd
      rw [weightedQs_cons, if_pos hw]
      simp only [dErrQPass, if_pos hw]
      match k with
      | 0 =>
        rw [Nat.add_zero, List.getD_cons_zero]
        rw [dErrQPass_frozen env qs rest (row0 + 1) _ _ (Or.inl (by omega))]
        exact getD_set_self _ _ _ _ (by omega)
      | k + 1 =>
        rw [List.getD_cons_succ]
        rw [show row0 + (k + 1) = (row0 + 1) + k from by omega]
        exact dErrQPass_at env qs rest (row0 + 1) _ k (by omega)
          (by simp only [List.length_set]; omega)
    · rw [weightedQs_cons, if_neg hw] at hk hd
      rw [weightedQs_cons, if_neg hw]
      simp only [dErrQPass, if_neg hw]
      exact dErrQPass_at env qs rest row0 d k hk hd

/-- C4: at a residual evaluation of the iterative solver whose incoming `dError`
has the fixed length `3*|markers| + |weightedUnprescribedCoordinates|` and zero
entries in the rows of invalid markers (true of the zero-initialised vector the
solver starts from, and re-established by every evaluation), the resulting
`dError` keeps that fixed length; each valid marker's three rows are
`sqrt(weight) * (experimental - computed)` componentwise at the current model
configuration; each invalid marker's three rows are exactly zero (structural
zero slots preserving the indexing); and the trailing rows are, one per
nonzero-weight unprescribed coordinate in parameter order,
`sqrt(weight) * (experimentalValue - currentValue)`. -/
theorem dError_residual_layout (env : Env) (markers : List markerToSolve)
    (ups : List coordinateInfo) (qs d : List ℚ)
    (hlen : d.length = 3 * markers.length + (weightedQs ups).length)
    (hzero : ∀ k r, k < markers.length → r < 3 →
      (markers.getD k mdefault).validExperimentalPosition = false →
      d.getD (3 * k + r) 0 = 0) :
    (computeDError env markers ups qs d).2.length =
        3 * markers.length + (weightedQs ups).length ∧
    (∀ k r, k < markers.length → r < 3 →
      (computeDError env markers ups qs d).2.getD (3 * k + r) 0 =
        (if (markers.getD k mdefault).validExperimentalPosition then
          env.sqrt (markers.getD k mdefault).weight *
            ((markers.getD k mdefault).experimentalPosition.nth r -
              (env.fk qs k).nth r)
        else 0)) ∧
    (∀ k, k < (weightedQs ups).length →
      (computeDError env markers ups qs d).2.getD (3 * markers.length + k) 0 =
        env.sqrt ((weightedQs ups).getD k dummyCoordInfo).weight *
          (((weightedQs ups).getD k dummyCoordInfo).experimentalValue -
            qs.getD ((weightedQs ups).getD k dummyCoordInfo).coordIndex 0)) := by
  refine ⟨?_, ?_, ?_⟩
  · simp only [computeDError]
    rw [dErrQPass_length, dErrMarkerPass_d_length]
    exact hlen
  · intro k r hk hr
    simp only [computeDError]
    rw [dErrQPass_frozen env qs ups (3 * markers.length) _ _ (Or.inl (by omega))]
    have := dErrMarkerPass_d_at env qs markers 0 markers d k r hk hr (by omega)
    rw [Nat.zero_add] at this
    rw [this]
    by_cases hv : (markers.getD k mdefault).validExperimentalPosition
    · rw [if_pos hv, if_pos hv]
    · rw [if_neg hv, if_neg hv]
      exact hzero k r hk hr (Bool.not_eq_true _ ▸ hv)
  · intro k hk
    simp only [computeDError]
    rw [dErrQPass_at env qs ups (3 * markers.length) _ k hk]
    rw [dErrMarkerPass_d_length]
    omega

/-- Every entry of a zero-filled vector reads zero. -/
theorem getD_replicate_zero (n j : Nat) : (List.replicate n (0 : ℚ)).getD j 0 = 0 := by
  rw [List.getD_eq_getElem?_getD, List.getElem?_replicate]
  by_cases h : j < n <;> simp [h]

/-- Witness for C4 at a concrete input: two markers (one valid, one invalid),
one weighted coordinate, zero-initialised `dError` of length `3*2 + 1`. -/
theorem dError_residual_layout_witness :
    (List.replicate 7 (0 : ℚ)).length =
        3 * sC3.markers.length + (weightedQs sC3.unprescribedQs).length ∧
    (∀ k r, k < sC3.markers.length → r < 3 →
      (sC3.markers.getD k mdefault).validExperimentalPosition = false →
      (List.replicate 7 (0 : ℚ)).getD (3 * k + r) 0 = 0) ∧
    ((computeDError envW sC3.markers sC3.unprescribedQs [6] (List.replicate 7 0)).2.length =
        3 * sC3.markers.length + (weightedQs sC3.unprescribedQs).length ∧
    (∀ k r, k < sC3.markers.length → r < 3 →
      (computeDError envW sC3.markers sC3.unprescribedQs [6] (List.replicate 7 0)).2.getD
          (3 * k + r) 0 =
        (if (sC3.markers.getD k mdefault).validExperimentalPosition then
          envW.sqrt (sC3.markers.getD k mdefault).weight *
            ((sC3.markers.getD k mdefault).experimentalPosition.nth r -
              (envW.fk [6] k).nth r)
        else 0)) ∧
    (∀ k, k < (weightedQs sC3.unprescribedQs).length →
      (computeDError envW sC3.markers sC3.unprescribedQs [6] (List.replicate 7 0)).2.getD
          (3 * sC3.markers.length + k) 0 =
        envW.sqrt ((weightedQs sC3.unprescribedQs).getD k dummyCoordInfo).weight *
          (((weightedQs sC3.unprescribedQs).getD k dummyCoordInfo).experimentalValue -
            ([6] : List ℚ).getD
              ((weightedQs sC3.unprescribedQs).getD k dummyCoordInfo).coordIndex 0))) :=
  ⟨by decide,
   fun k r _ _ _ => getD_replicate_zero 7 (3 * k + r),
   dError_residual_layout envW sC3.markers sC3.unprescribedQs [6] (List.replicate 7 0)
     (by decide)
     (fun k r _ _ _ => getD_replicate_zero 7 (3 * k + r))⟩

/-- If the backtracking loop accepts, the accepted residual norm does not exceed
the previous accepted norm: the loop halves `dQ` and re-evaluates precisely as
long as the trial norm exceeds it. -/
theorem backtrackLoop_norm_le (env : Env) (ups : List coordinateInfo)
    (results : List ℚ) :
    ∀ (fuel : Nat) (dQ qs : List ℚ) (markers : List markerToSolve)
      (dErr : List ℚ) (temp previous : ℚ) (out : BTOut),
      backtrackLoop env ups results fuel dQ qs markers dErr temp previous = some out →
      out.norm ≤ previous
  | 0, dQ, qs, markers, dErr, temp, previous, out => by
    by_cases hc : temp > previous <;> simp [backtrackLoop, hc]
    intro h
    rw [← h]
    exact le_of_not_lt hc
  | fuel + 1, dQ, qs, markers, dErr, temp, previous, out => by
    by_cases hc : temp > previous
    · simp only [backtrackLoop, if_pos hc]
      exact backtrackLoop_norm_le env ups results fuel _ _ _ _ _ previous out
    · simp [backtrackLoop, hc]
      intro h
      rw [← h]
      exact le_of_not_lt hc

/-- One accepted outer iteration never increases the accepted residual norm. -/
theorem outerStep_norm_le (env : Env) (ups : List coordinateInfo) (dx : List ℚ)
    (bfuel : Nat) (st st' : SState)
    (h : outerStep env ups dx bfuel st = some st') :
    st'.currentNorm ≤ st.currentNorm := by
  simp only [outerStep, Option.map_eq_some'] at h
  obtain ⟨out, hbt, hst⟩ := h
  rw [← hst]
  show out.norm ≤ st.currentNorm
  exact backtrackLoop_norm_le env ups st.results bfuel _ _ _ _ _ _ out hbt

/-- Across any run of the outer loop the accepted residual norm never
increases. -/
theorem solverLoop_norm_le (env : Env) (ups : List coordinateInfo) (dx : List ℚ)
    (bfuel : Nat) :
    ∀ (fuel : Nat) (st st' : SState),
      solverLoop env ups dx bfuel fuel st = some st' →
      st'.currentNorm ≤ st.currentNorm
  | 0, st, st' => by
    simp [solverLoop]
    intro h
    rw [← h]
  | fuel + 1, st, st' => by
    by_cases hg : st.delta > errTol ∧ st.iter < maxIter
    · simp only [solverLoop, if_pos hg]
      cases hstep : outerStep env ups dx bfuel st with
      | none => intro h; cases h
      | some st1 =>
        intro h
        exact le_trans (solverLoop_norm_le env ups dx bfuel fuel st1 st' h)
          (outerStep_norm_le env ups dx bfuel st st1 hstep)
    · simp only [solverLoop, if_neg hg, Option.some.injEq]
      intro h
      rw [← h]

/-- C5: an accepted step never increases the residual norm.  Within each outer
iteration of `iterativeOptimization` the update `dQ` is halved as long as the
trial residual norm exceeds the previous accepted norm
(`while(tempDErrorNorm > previousDErrorNorm) dQ = dQ*0.5; ...`), so whenever the
iteration completes, its accepted `currentDErrorNorm` is at most the previous
accepted norm — and hence the accepted norm is monotonically non-increasing
across the entire solver loop. -/
theorem acceptedNorm_monotone_nonincreasing :
    (∀ (env : Env) (ups : List coordinateInfo) (dx : List ℚ) (bfuel : Nat)
      (st st' : SState),
      outerStep env ups dx bfuel st = some st' →
      st'.currentNorm ≤ st.currentNorm) ∧
    (∀ (env : Env) (ups : List coordinateInfo) (dx : List ℚ) (bfuel fuel : Nat)
      (st st' : SState),
      solverLoop env ups dx bfuel fuel st = some st' →
      st'.currentNorm ≤ st.currentNorm) :=
  ⟨outerStep_norm_le, fun env ups dx bfuel fuel => solverLoop_norm_le env ups dx bfuel fuel⟩

/-- The concrete solver state used by the C5 and C8 witnesses. -/
def stC5 : SState :=
  { results := [], qs := []
    markers := [{ mC2 with computedPosition := ⟨0, 0, 0⟩ }]
    dErr := [2, 4, 6], J := [], currentNorm := 56, delta := 100, iter := 0 }

/-- The state after one accepted outer iteration from `stC5`. -/
def stC5' : SState :=
  { results := [], qs := []
    markers := [{ mC2 with computedPosition := ⟨0, 0, 0⟩ }]
    dErr := [2, 4, 6], J := [], currentNorm := 56, delta := 0, iter := 1 }

/-- Concrete evaluation of one outer iteration, shared by the C5 witness. -/
theorem outerStep_eval_concrete : outerStep envW [] [] 5 stC5 = some stC5' := by
  norm_num [outerStep, createJacobian, jacLoop, markerWeights, addVec, computeDError,
    dErrMarkerPass, dErrQPass, dnorm, envW, setCoordValues, setCoordValues.go,
    backtrackLoop_done, weightedQs, stC5, stC5', mC2, List.replicate]

/-- Witness for C5 at a concrete input. -/
theorem acceptedNorm_monotone_nonincreasing_witness :
    outerStep envW [] [] 5 stC5 = some stC5' ∧ stC5'.currentNorm ≤ stC5.currentNorm :=
  ⟨outerStep_eval_concrete,
   acceptedNorm_monotone_nonincreasing.1 envW [] [] 5 stC5 stC5' outerStep_eval_concrete⟩

/-- Default model coordinate for out-of-range reads in statements. -/
def cdefault : ModelCoordinate :=
  { name := "", locked := false, constrained := false, defaultValue := 0 }

/-- The initialisation loop of `buildCoordinateMap` produces one info per model
coordinate. -/
theorem initAllCoordinates_go_length :
    ∀ (coords : List ModelCoordinate) (i0 : Nat),
      (initAllCoordinates.go coords i0).length = coords.length
  | [], _ => rfl
  | c :: rest, i0 => by
    simp [initAllCoordinates.go, initAllCoordinates_go_length rest (i0 + 1)]

/-- Entry `k` of the initialisation loop's output is the freshly initialised
info of model coordinate `i0 + k`. -/
theorem initAllCoordinates_go_getD :
    ∀ (coords : List ModelCoordinate) (i0 k : Nat), k < coords.length →
      (initAllCoordinates.go coords i0).getD k dummyCoordInfo =
        initCoordInfo (i0 + k) (coords.getD k cdefault)
  | [], i0, k, hk => by simp at hk
  | c :: rest, i0, 0, hk => by
    simp [initAllCoordinates.go, List.getD_cons_zero]
  | c :: rest, i0, k + 1, hk => by
    simp only [initAllCoordinates.go, List.getD_cons_succ]
    rw [initAllCoordinates_go_getD rest (i0 + 1) k
      (by simpa using Nat.lt_of_succ_lt_succ hk)]
    rw [show i0 + 1 + k = i0 + (k + 1) from by omega]

/-- Processing one coordinate task neither resizes the info table nor touches
any entry's `coordIndex` or `prescribed` field. -/
theorem applyCoordinateTask_inv (coords : List ModelCoordinate)
    (labels : List String) (all all' : List coordinateInfo)
    (t : IKCoordinateTask)
    (h : applyCoordinateTask coords labels all t = .ok all') :
    all'.length = all.length ∧
    ∀ k, (all'.getD k dummyCoordInfo).coordIndex =
        (all.getD k dummyCoordInfo).coordIndex ∧
      (all'.getD k dummyCoordInfo).prescribed =
        (all.getD k dummyCoordInfo).prescribed := by
  simp only [applyCoordinateTask] at h
  by_cases hci : getIndexOfCoord coords t.name < 0
  · simp [hci] at h
  · simp only [hci, if_false] at h
    have hset : ∃ info1 : coordinateInfo,
        info1.coordIndex = (all.getD (getIndexOfCoord coords t.name).toNat
          dummyCoordInfo).coordIndex ∧
        info1.prescribed = (all.getD (getIndexOfCoord coords t.name).toNat
          dummyCoordInfo).prescribed ∧
        all' = all.set (getIndexOfCoord coords t.name).toNat
          { info1 with weight := t.weight } := by
      cases hvt : t.valueType with
      | FromFile =>
        rw [hvt] at h
        by_cases hj : rfindIndex labels t.name < 0
        · simp [hj, Except.map] at h
        · simp only [hj, if_false, Except.map] at h
          injection h with h'
          exact ⟨{ all.getD (getIndexOfCoord coords t.name).toNat dummyCoordInfo with
            experimentalColumn := rfindIndex labels t.name - 1 }, rfl, rfl, h'.symm⟩
      | ManualValue =>
        rw [hvt] at h
        simp only [Except.map] at h
        injection h with h'
        exact ⟨{ all.getD (getIndexOfCoord coords t.name).toNat dummyCoordInfo with
          constantExperimentalValue := t.value }, rfl, rfl, h'.symm⟩
      | DefaultValue =>
        rw [hvt] at h
        simp only [Except.map] at h
        injection h with h'
        exact ⟨all.getD (getIndexOfCoord coords t.name).toNat dummyCoordInfo,
          rfl, rfl, h'.symm⟩
    obtain ⟨info1, hc1, hp1, hall⟩ := hset
    subst hall
    refine ⟨List.length_set _ _ _, ?_⟩
    intro k
    by_cases hk : k = (getIndexOfCoord coords t.name).toNat
    · rw [hk]
      by_cases hlt : (getIndexOfCoord coords t.name).toNat < all.length
      · rw [getD_set_self _ _ _ _ hlt]
        exact ⟨hc1, hp1⟩
      · rw [List.set_eq_of_length_le (by omega)]
        exact ⟨rfl, rfl⟩
    · rw [getD_set_ne _ _ _ _ _ (fun e => hk e.symm)]
      exact ⟨rfl, rfl⟩

/-- The whole task loop neither resizes the info table nor touches any entry's
`coordIndex` or `prescribed` field: `prescribed` is decided solely at
initialisation, from the model's own locked/constrained flags. -/
theorem applyTasks_inv (coords : List ModelCoordinate) (labels : List String) :
    ∀ (tasks : List IKTask) (all all' : List coordinateInfo),
      applyTasks coords labels tasks all = .ok all' →
      all'.length = all.length ∧
      ∀ k, (all'.getD k dummyCoordInfo).coordIndex =
          (all.getD k dummyCoordInfo).coordIndex ∧
        (all'.getD k dummyCoordInfo).prescribed =
          (all.getD k dummyCoordInfo).prescribed
  | [], all, all' => by
    simp only [applyTasks, Except.ok.injEq]
    intro h
    rw [← h]
    exact ⟨rfl, fun k => ⟨rfl, rfl⟩⟩
  | IKTask.marker :: rest, all, all' => by
    simp only [applyTasks]
    exact applyTasks_inv coords labels rest all all'
  | IKTask.coordinate t :: rest, all, all' => by
    simp only [applyTasks]
    by_cases ha : t.apply
    · simp only [ha, if_true]
      cases hone : applyCoordinateTask coords labels all t with
      | error e => intro h; simp [hone] at h
      | ok all1 =>
        intro h
        simp only [hone] at h
        obtain ⟨h1len, h1f⟩ := applyCoordinateTask_inv coords labels all all1 t hone
        obtain ⟨h2len, h2f⟩ := applyTasks_inv coords labels rest all1 all' h
        refine ⟨h2len.trans h1len, fun k => ?_⟩
        exact ⟨(h2f k).1.trans (h1f k).1, (h2f k).2.trans (h1f k).2⟩
    · simp only [ha, if_false]
      exact applyTasks_inv coords labels rest all all'

/-- The final filtering loop of `buildCoordinateMap` produces exactly the three
filters of the info table: the prescribed entries, the unprescribed entries, and
the unprescribed entries of nonzero weight, all in table order. -/
theorem partitionCoordinates_eq :
    ∀ (all : List coordinateInfo),
      partitionCoordinates all =
        (all.filter (fun i => i.prescribed),
         all.filter (fun i => !i.prescribed),
         all.filter (fun i => !i.prescribed && decide (i.weight ≠ 0)))
  | [] => rfl
  | info :: rest => by
    simp only [partitionCoordinates, partitionCoordinates_eq rest]
    by_cases hp : info.prescribed
    · simp [List.filter_cons, hp]
    · by_cases hw : info.weight ≠ 0
      · simp [List.filter_cons, hp, hw]
      · simp [List.filter_cons, hp, hw]

/-- The weighted subset view of a filtered list merges into a single filter. -/
theorem weightedQs_filter (all : List coordinateInfo) :
    weightedQs (all.filter (fun i => !i.prescribed)) =
      all.filter (fun i => !i.prescribed && decide (i.weight ≠ 0)) := by
  simp only [weightedQs, List.filter_filter]
  apply List.filter_congr
  intro a _
  simp [Bool.and_comm]

/-- An in-range `getD` read is a member of the list. -/
theorem getD_mem {α : Type} (l : List α) (i : Nat) (d : α) (h : i < l.length) :
    l.getD i d ∈ l := by
  rw [List.getD_eq_getElem?_getD, List.getElem?_eq_getElem h]
  simp only [Option.getD_some]
  exact List.getElem_mem h

/-- Every member of a list is an in-range `getD` read. -/
theorem mem_to_getD {α : Type} (l : List α) (e d : α) (h : e ∈ l) :
    ∃ k, k < l.length ∧ l.getD k d = e := by
  obtain ⟨k, hk, he⟩ := List.mem_iff_getElem.mp h
  refine ⟨k, hk, ?_⟩
  rw [List.getD_eq_getElem?_getD, List.getElem?_eq_getElem hk]
  simpa

/-- The initialisation loop produces one info per model coordinate. -/
theorem length_initAllCoordinates (coords : List ModelCoordinate) :
    (initAllCoordinates coords).length = coords.length :=
  initAllCoordinates_go_length coords 0

/-- On a table whose entry `k` carries `coordIndex = k`, a coordinate index `i`
is represented in the filter by `q` exactly when entry `i` satisfies `q`. -/
theorem filter_coordIndex_mem (all1 : List coordinateInfo)
    (q : coordinateInfo → Bool)
    (hidx : ∀ k, k < all1.length → (all1.getD k dummyCoordInfo).coordIndex = k)
    (i : Nat) (hi : i < all1.length) :
    (∃ e ∈ all1.filter q, e.coordIndex = i) ↔
      q (all1.getD i dummyCoordInfo) = true := by
  constructor
  · rintro ⟨e, hef, hei⟩
    rw [List.mem_filter] at hef
    obtain ⟨hemem, heq⟩ := hef
    obtain ⟨k, hk, hke⟩ := mem_to_getD all1 e dummyCoordInfo hemem
    have hki : k = i := by
      rw [← hei, ← hke]
      exact (hidx k hk).symm
    rw [← hki, hke]
    exact heq
  · intro hq
    refine ⟨all1.getD i dummyCoordInfo, ?_, hidx i hi⟩
    rw [List.mem_filter]
    exact ⟨getD_mem all1 i dummyCoordInfo hi, hq⟩

/-- C6: after `buildCoordinateMap`, every model coordinate belongs to exactly
one of the prescribed and unprescribed sets; it is in the prescribed set exactly
when the model reports it locked or constrained, irrespective of any task naming
it (tasks can only change weights and value sources); and the weighted
unprescribed set is exactly the nonzero-weight subset view of the unprescribed
set.  The partition is a pure function of the construction inputs, hence fixed
for the lifetime of the object. -/
theorem buildCoordinateMap_partition (coords : List ModelCoordinate)
    (tasks : List IKTask) (labels : List String) (p u w : List coordinateInfo)
    (h : buildCoordinateMap coords tasks labels = .ok (p, u, w)) :
    (∀ i, i < coords.length →
      ((∃ e ∈ p, e.coordIndex = i) ↔
        ((coords.getD i cdefault).locked || (coords.getD i cdefault).constrained) = true) ∧
      ((∃ e ∈ u, e.coordIndex = i) ↔
        ((coords.getD i cdefault).locked || (coords.getD i cdefault).constrained) = false) ∧
      (((∃ e ∈ p, e.coordIndex = i) ∧ ¬(∃ e ∈ u, e.coordIndex = i)) ∨
       ((∃ e ∈ u, e.coordIndex = i) ∧ ¬(∃ e ∈ p, e.coordIndex = i)))) ∧
    w = weightedQs u := by
  simp only [buildCoordinateMap] at h
  cases happ : applyTasks coords labels tasks (initAllCoordinates coords) with
  | error e =>
    rw [happ] at h
    simp [Except.map] at h
  | ok all1 =>
    rw [happ] at h
    simp only [Except.map] at h
    injection h with h'
    rw [partitionCoordinates_eq] at h'
    have hp : p = all1.filter (fun i => i.prescribed) := (congrArg Prod.fst h').symm
    have hu : u = all1.filter (fun i => !i.prescribed) :=
      (congrArg (fun t => t.2.1) h').symm
    have hw : w = all1.filter (fun i => !i.prescribed && decide (i.weight ≠ 0)) :=
      (congrArg (fun t => t.2.2) h').symm
    obtain ⟨hlen1, hfields⟩ :=
      applyTasks_inv coords labels tasks (initAllCoordinates coords) all1 happ
    have hlen : all1.length = coords.length :=
      hlen1.trans (length_initAllCoordinates coords)
    have key : ∀ i, i < coords.length →
        (all1.getD i dummyCoordInfo).coordIndex = i ∧
        (all1.getD i dummyCoordInfo).prescribed =
          ((coords.getD i cdefault).locked || (coords.getD i cdefault).constrained) := by
      intro i hi
      have hinit := initAllCoordinates_go_getD coords 0 i hi
      rw [Nat.zero_add] at hinit
      have h1 := (hfields i).1
      have h2 := (hfields i).2
      have hgo : (initAllCoordinates coords).getD i dummyCoordInfo =
          initCoordInfo i (coords.getD i cdefault) := hinit
      rw [hgo] at h1 h2
      exact ⟨h1.trans rfl, h2.trans rfl⟩
    constructor
    · intro i hi
      have hidx : ∀ k, k < all1.length → (all1.getD k dummyCoordInfo).coordIndex = k := by
        intro k hk
        exact (key k (by omega)).1
      have hmp : (∃ e ∈ all1.filter (fun e => e.prescribed), e.coordIndex = i) ↔
          (all1.getD i dummyCoordInfo).prescribed = true :=
        filter_coordIndex_mem all1 (fun e => e.prescribed) hidx i (by omega)
      have hmu : (∃ e ∈ all1.filter (fun e => !e.prescribed), e.coordIndex = i) ↔
          (!(all1.getD i dummyCoordInfo).prescribed) = true :=
        filter_coordIndex_mem all1 (fun e => !e.prescribed) hidx i (by omega)
      rw [hp, hu]
      refine ⟨?_, ?_, ?_⟩
      · rw [hmp, (key i hi).2]
      · rw [hmu, (key i hi).2]
        cases ((coords.getD i cdefault).locked || (coords.getD i cdefault).constrained) <;> simp
      · by_cases hflag : ((coords.getD i cdefault).locked ||
            (coords.getD i cdefault).constrained) = true
        · left
          constructor
          · rw [hmp, (key i hi).2]
            exact hflag
          · rw [hmu, (key i hi).2, hflag]
            intro hcontra
            cases hcontra
        · right
          constructor
          · rw [hmu, (key i hi).2]
            simp only [Bool.not_eq_true] at hflag
            rw [hflag]
            rfl
          · rw [hmp, (key i hi).2]
            exact hflag
    · rw [hw, hu, weightedQs_filter]

/-- Concrete model coordinates for the C6 witness: one locked, one free. -/
def coordsC6 : List ModelCoordinate :=
  [{ name := "q0", locked := true, constrained := false, defaultValue := 1 },
   { name := "q1", locked := false, constrained := false, defaultValue := 2 }]

/-- Concrete task list for the C6 witness: one applied coordinate task with a
manual value and weight 3, plus a marker task that the coordinate map skips. -/
def tasksC6 : List IKTask :=
  [IKTask.coordinate
     { name := "q1", apply := true, valueType := IKValueType.ManualValue
       value := 5, weight := 3 },
   IKTask.marker]

/-- Column labels for the C6 witness. -/
def labelsC6 : List String := ["time", "q1"]

/-- Expected prescribed set of the C6 witness. -/
def pC6 : List coordinateInfo :=
  [{ coordIndex := 0, prescribed := true, experimentalColumn := -1
     constantExperimentalValue := 1, weight := 0, experimentalValue := 0 }]

/-- Expected unprescribed set of the C6 witness. -/
def uC6 : List coordinateInfo :=
  [{ coordIndex := 1, prescribed := false, experimentalColumn := -1
     constantExperimentalValue := 5, weight := 3, experimentalValue := 0 }]

/-- Witness for C6 at a concrete input. -/
theorem buildCoordinateMap_partition_witness :
    buildCoordinateMap coordsC6 tasksC6 labelsC6 = .ok (pC6, uC6, uC6) ∧
    ((∀ i, i < coordsC6.length →
      ((∃ e ∈ pC6, e.coordIndex = i) ↔
        ((coordsC6.getD i cdefault).locked || (coordsC6.getD i cdefault).constrained) = true) ∧
      ((∃ e ∈ uC6, e.coordIndex = i) ↔
        ((coordsC6.getD i cdefault).locked || (coordsC6.getD i cdefault).constrained) = false) ∧
      (((∃ e ∈ pC6, e.coordIndex = i) ∧ ¬(∃ e ∈ uC6, e.coordIndex = i)) ∨
       ((∃ e ∈ uC6, e.coordIndex = i) ∧ ¬(∃ e ∈ pC6, e.coordIndex = i)))) ∧
    uC6 = weightedQs uC6) :=
  ⟨rfl,
   buildCoordinateMap_partition coordsC6 tasksC6 labelsC6 pC6 uC6 uC6 rfl⟩

/-- Reading through `map` at an in-range index applies the function to the
entry. -/
theorem getD_map {α β : Type} (f : α → β) (l : List α) (k : Nat) (d : β)
    (d0 : α) (h : k < l.length) :
    (l.map f).getD k d = f (l.getD k d0) := by
  rw [List.getD_eq_getElem?_getD, List.getElem?_map, List.getElem?_eq_getElem h]
  rw [List.getD_eq_getElem?_getD, List.getElem?_eq_getElem h]
  simp

/-- Rebinding the experimental value of a weight-0 entry does not change the
weighted subset view. -/
theorem weightedQs_set_weight0 :
    ∀ (rest : List coordinateInfo) (k : Nat) (v : ℚ), k < rest.length →
      (rest.getD k dummyCoordInfo).weight = 0 →
      weightedQs (rest.set k
        { rest.getD k dummyCoordInfo with experimentalValue := v }) =
        weightedQs rest
  | [], k, v, hk, hw => by simp at hk
  | c :: rest, 0, v, hk, hw => by
    rw [List.getD_cons_zero] at hw
    rw [List.getD_cons_zero, List.set_cons_zero]
    rw [weightedQs_cons, weightedQs_cons]
    simp [hw]
  | c :: rest, k + 1, v, hk, hw => by
    rw [List.getD_cons_succ] at hw
    rw [List.getD_cons_succ, List.set_cons_succ]
    rw [weightedQs_cons, weightedQs_cons]
    rw [weightedQs_set_weight0 rest k v (by simpa using Nat.lt_of_succ_lt_succ hk) hw]

/-- Rebinding the experimental value of a weight-0 entry does not change the
coordinate residual rows: the `Q ERRORS` block skips weight-0 coordinates. -/
theorem dErrQPass_set_weight0 (env : Env) (qs : List ℚ) :
    ∀ (rest : List coordinateInfo) (row0 : Nat) (d : List ℚ) (k : Nat) (v : ℚ),
      k < rest.length → (rest.getD k dummyCoordInfo).weight = 0 →
      dErrQPass env qs (rest.set k
        { rest.getD k dummyCoordInfo with experimentalValue := v }) row0 d =
        dErrQPass env qs rest row0 d
  | [], row0, d, k, v, hk, hw => by simp at hk
  | c :: rest, row0, d, 0, v, hk, hw => by
    rw [List.getD_cons_zero] at hw
    rw [List.getD_cons_zero, List.set_cons_zero]
    simp only [dErrQPass, hw]
    simp
  | c :: rest, row0, d, k + 1, v, hk, hw => by
    rw [List.getD_cons_succ] at hw
    rw [List.getD_cons_succ, List.set_cons_succ]
    by_cases hcw : c.weight ≠ 0
    · simp only [dErrQPass, if_pos hcw]
      rw [dErrQPass_set_weight0 env qs rest (row0 + 1) _ k v
        (by simpa using Nat.lt_of_succ_lt_succ hk) hw]
    · simp only [dErrQPass, if_neg hcw]
      rw [dErrQPass_set_weight0 env qs rest row0 d k v
        (by simpa using Nat.lt_of_succ_lt_succ hk) hw]

/-- C9: a coordinate task with weight 0 and a file-sourced value
(`experimentalColumn >= 0`) on an unprescribed coordinate still has its initial
guess `qGuess[k]` taken from its experimental data column by `prepareToSolve`;
yet its table entry is left untouched (in particular its weight stays 0), so it
is not in the weighted subset view, and neither the residual rows written by the
`Q ERRORS` block nor the weighted set driving the objective depend on whatever
experimental value such an entry could carry: it contributes no residual row and
no objective term. -/
theorem prepareToSolve_weight0_fileValue (s : TState) (row : StateVector)
    (k : Nat) (hk : k < s.unprescribedQs.length)
    (hw : (s.unprescribedQs.getD k dummyCoordInfo).weight = 0)
    (hcol : 0 ≤ (s.unprescribedQs.getD k dummyCoordInfo).experimentalColumn) :
    (prepareToSolve s row).1.getD k 0 =
      getDataValue row
        (s.unprescribedQs.getD k dummyCoordInfo).experimentalColumn.toNat ∧
    (prepareToSolve s row).2.unprescribedQs.getD k dummyCoordInfo =
      s.unprescribedQs.getD k dummyCoordInfo ∧
    (∀ e ∈ weightedQs (prepareToSolve s row).2.unprescribedQs, e.weight ≠ 0) ∧
    (∀ v : ℚ,
      weightedQs ((prepareToSolve s row).2.unprescribedQs.set k
        { (prepareToSolve s row).2.unprescribedQs.getD k dummyCoordInfo with
          experimentalValue := v }) =
        weightedQs (prepareToSolve s row).2.unprescribedQs) ∧
    (∀ (env : Env) (qs d : List ℚ) (row0 : Nat) (v : ℚ),
      dErrQPass env qs ((prepareToSolve s row).2.unprescribedQs.set k
        { (prepareToSolve s row).2.unprescribedQs.getD k dummyCoordInfo with
          experimentalValue := v }) row0 d =
        dErrQPass env qs (prepareToSolve s row).2.unprescribedQs row0 d) := by
  have hups : (prepareToSolve s row).2.unprescribedQs.getD k dummyCoordInfo =
      s.unprescribedQs.getD k dummyCoordInfo := by
    simp only [prepareToSolve, bindUnprescribed]
    rw [getD_map _ _ k dummyCoordInfo dummyCoordInfo hk]
    have hw2 : ¬(s.unprescribedQs.getD k dummyCoordInfo).weight ≠ 0 := fun h => h hw
    simp only [if_neg hw2]
  have hlen : k < (prepareToSolve s row).2.unprescribedQs.length := by
    simp only [prepareToSolve, bindUnprescribed]
    simpa using hk
  have hw' : ((prepareToSolve s row).2.unprescribedQs.getD k dummyCoordInfo).weight = 0 := by
    rw [hups]
    exact hw
  refine ⟨?_, hups, ?_, ?_, ?_⟩
  · simp only [prepareToSolve, bindUnprescribed]
    rw [getD_map _ _ k 0 dummyCoordInfo hk]
    rw [unprescribedGuess, if_pos hcol]
  · intro e he
    rw [weightedQs, List.mem_filter] at he
    have := he.2
    simpa using this
  · intro v
    exact weightedQs_set_weight0 _ k v hlen hw'
  · intro env qs d row0 v
    exact dErrQPass_set_weight0 env qs _ row0 d k v hlen hw'

/-- Concrete state for the C9 witness: one unprescribed coordinate with weight 0
and a file column. -/
def sC9 : TState :=
  { markers := [], prescribedQs := []
    unprescribedQs :=
      [{ coordIndex := 0, prescribed := false, experimentalColumn := 2
         constantExperimentalValue := 7, weight := 0, experimentalValue := 0 }]
    qs := [9], dx := [], interrupted := false }

/-- Concrete data row for the C9 witness. -/
def rowC9 : StateVector := { vals := [10, 11, 12], nan := [false, false, false] }

/-- Witness for C9 at a concrete input. -/
theorem prepareToSolve_weight0_fileValue_witness :
    0 < sC9.unprescribedQs.length ∧
    (sC9.unprescribedQs.getD 0 dummyCoordInfo).weight = 0 ∧
    0 ≤ (sC9.unprescribedQs.getD 0 dummyCoordInfo).experimentalColumn ∧
    ((prepareToSolve sC9 rowC9).1.getD 0 0 =
      getDataValue rowC9
        (sC9.unprescribedQs.getD 0 dummyCoordInfo).experimentalColumn.toNat ∧
    (prepareToSolve sC9 rowC9).2.unprescribedQs.getD 0 dummyCoordInfo =
      sC9.unprescribedQs.getD 0 dummyCoordInfo ∧
    (∀ e ∈ weightedQs (prepareToSolve sC9 rowC9).2.unprescribedQs, e.weight ≠ 0) ∧
    (∀ v : ℚ,
      weightedQs ((prepareToSolve sC9 rowC9).2.unprescribedQs.set 0
        { (prepareToSolve sC9 rowC9).2.unprescribedQs.getD 0 dummyCoordInfo with
          experimentalValue := v }) =
        weightedQs (prepareToSolve sC9 rowC9).2.unprescribedQs) ∧
    (∀ (env : Env) (qs d : List ℚ) (row0 : Nat) (v : ℚ),
      dErrQPass env qs ((prepareToSolve sC9 rowC9).2.unprescribedQs.set 0
        { (prepareToSolve sC9 rowC9).2.unprescribedQs.getD 0 dummyCoordInfo with
          experimentalValue := v }) row0 d =
        dErrQPass env qs (prepareToSolve sC9 rowC9).2.unprescribedQs row0 d)) :=
  ⟨by decide, by decide, by decide,
   prepareToSolve_weight0_fileValue sC9 rowC9 0 (by decide) (by decide) (by decide)⟩

/-- Restoring a slot to the value it already holds is a no-op. -/
theorem set_getD_self : ∀ (l : List ℚ) (i : Nat), i < l.length →
    l.set i (l.getD i 0) = l
  | [], i, h => by simp at h
  | a :: l, 0, h => by simp
  | a :: l, i + 1, h => by
    simp only [List.set_cons_succ, List.getD_cons_succ]
    rw [set_getD_self l i (by simpa using Nat.lt_of_succ_lt_succ h)]

/-- The Jacobian marker loop preserves the length of `pf`. -/
theorem jacMarkerPass_length (env : Env) (mw qs1 : List ℚ) :
    ∀ (rest : List markerToSolve) (mi : Nat) (pf : List ℚ),
      (jacMarkerPass env mw qs1 rest mi pf).length = pf.length
  | [], mi, pf => by simp [jacMarkerPass]
  | m :: rest, mi, pf => by
    by_cases hv : m.validExperimentalPosition <;>
      simp only [jacMarkerPass, hv, Bool.false_eq_true, if_true, if_false] <;>
      rw [jacMarkerPass_length env mw qs1 rest (mi + 1)] <;>
      simp

/-- The Jacobian marker loop leaves every `pf` entry outside its own index range
`[3*mi, 3*(mi+|rest|))` unchanged. -/
theorem jacMarkerPass_frozen (env : Env) (mw qs1 : List ℚ) :
    ∀ (rest : List markerToSolve) (mi : Nat) (pf : List ℚ) (j : Nat),
      (j < 3 * mi ∨ 3 * (mi + rest.length) ≤ j) →
      (jacMarkerPass env mw qs1 rest mi pf).getD j 0 = pf.getD j 0
  | [], mi, pf, j, h => by simp [jacMarkerPass]
  | m :: rest, mi, pf, j, h => by
    rw [List.length_cons] at h
    have hrec : j < 3 * (mi + 1) ∨ 3 * ((mi + 1) + rest.length) ≤ j := by omega
    by_cases hv : m.validExperimentalPosition
    · simp only [jacMarkerPass, hv, if_true]
      rw [jacMarkerPass_frozen env mw qs1 rest (mi + 1) _ j hrec]
      rw [getD_set_ne _ _ _ _ _ (by omega), getD_set_ne _ _ _ _ _ (by omega),
        getD_set_ne _ _ _ _ _ (by omega)]
    · simp only [jacMarkerPass, hv, Bool.false_eq_true, if_false]
      exact jacMarkerPass_frozen env mw qs1 rest (mi + 1) pf j hrec

/-- Entry `3*(mi+k)+r` of `pf` after the Jacobian marker loop: for a valid
marker the weighted forward difference of the world position against the stored
baseline, for an invalid marker the entry is untouched. -/
theorem jacMarkerPass_at (env : Env) (mw qs1 : List ℚ) :
    ∀ (rest : List markerToSolve) (mi : Nat) (pf : List ℚ) (k r : Nat),
      k < rest.length → r < 3 → 3 * (mi + rest.length) ≤ pf.length →
      (jacMarkerPass env mw qs1 rest mi pf).getD (3 * (mi + k) + r) 0 =
        (if (rest.getD k mdefault).validExperimentalPosition then
          mw.getD (mi + k) 0 *
            ((env.fk qs1 (mi + k)).nth r -
              (rest.getD k mdefault).computedPosition.nth r)
        else pf.getD (3 * (mi + k) + r) 0)
  | [], mi, pf, k, r, hk, hr, hp => by simp at hk
  | m :: rest, mi, pf, k, r, hk, hr, hp => by
    rw [List.length_cons] at hp
    rw [List.length_cons] at hk
    match k with
    | 0 =>
      simp only [List.getD_cons_zero, Nat.add_zero]
      by_cases hv : m.validExperimentalPosition
      · simp only [jacMarkerPass, hv, if_true]
        rw [jacMarkerPass_frozen env mw qs1 rest (mi + 1) _ _ (Or.inl (by omega))]
        interval_cases r
        · have h0 : 3 * mi + 0 = 3 * mi := Nat.add_zero _
          rw [h0]
          rw [getD_set_ne _ _ _ _ _ (by omega), getD_set_ne _ _ _ _ _ (by omega),
            getD_set_self _ _ _ _ (by omega)]
          simp [Vec3.nth]
        · rw [getD_set_ne _ _ _ _ _ (by omega),
            getD_set_self _ _ _ _ (by simp only [List.length_set]; omega)]
          simp [Vec3.nth]
        · rw [getD_set_self _ _ _ _ (by simp only [List.length_set]; omega)]
          simp [Vec3.nth]
      · simp only [jacMarkerPass, hv, Bool.false_eq_true, if_false]
        exact jacMarkerPass_frozen env mw qs1 rest (mi + 1) pf _ (Or.inl (by omega))
    | k + 1 =>
      have hidx : 3 * (mi + (k + 1)) + r = 3 * ((mi + 1) + k) + r := by ring_nf
      rw [hidx]
      simp only [List.getD_cons_succ]
      by_cases hv : m.validExperimentalPosition
      · simp only [jacMarkerPass, hv, if_true]
        rw [jacMarkerPass_at env mw qs1 rest (mi + 1) _ k r (by omega) hr
          (by simp only [List.length_set]; omega)]
        rw [getD_set_ne _ _ _ _ _ (by omega), getD_set_ne _ _ _ _ _ (by omega),
          getD_set_ne _ _ _ _ _ (by omega)]
        rw [show mi + 1 + k = mi + (k + 1) from by omega]
      · simp only [jacMarkerPass, hv, Bool.false_eq_true, if_false]
        rw [jacMarkerPass_at env mw qs1 rest (mi + 1) pf k r (by omega) hr (by omega)]
        rw [show mi + 1 + k = mi + (k + 1) from by omega]

/-- Columns below the starting parameter index are never written by the
Jacobian control loop. -/
theorem jacLoop_cols_lt (env : Env) (markers : List markerToSolve)
    (mw dx jointQs : List ℚ) :
    ∀ (rest : List coordinateInfo) (i row : Nat) (qs pf : List ℚ)
      (J : List (List ℚ)) (j : Nat), j < i →
      (jacLoop env markers mw dx jointQs rest i row qs pf J).2.getD j [] =
        J.getD j []
  | [], i, row, qs, pf, J, j, hj => by simp [jacLoop]
  | c :: rest, i, row, qs, pf, J, j, hj => by
    by_cases hw : c.weight ≠ 0
    · simp only [jacLoop, if_pos hw]
      rw [jacLoop_cols_lt env markers mw dx jointQs rest (i + 1) (row + 1) _ _ _ j
        (by omega)]
      rw [getD_set_ne _ _ _ _ _ (by omega), getD_set_ne _ _ _ _ _ (by omega)]
    · simp only [jacLoop, if_neg hw]
      rw [jacLoop_cols_lt env markers mw dx jointQs rest (i + 1) row _ _ _ j (by omega)]
      rw [getD_set_ne _ _ _ _ _ (by omega)]

/-- The column the Jacobian control loop writes for parameter `i + t`: scaled
forward differences in valid markers' rows, zero in invalid markers' rows and in
all trailing rows — except, for a nonzero-weight coordinate, exactly
`sqrt(weight)` in its own residual row, independent of the step. -/
theorem jacLoop_final (env : Env) (markers : List markerToSolve)
    (mw dx jointQs : List ℚ) :
    ∀ (rest : List coordinateInfo) (i row : Nat) (qs pf : List ℚ)
      (J : List (List ℚ)) (t : Nat),
      t < rest.length →
      (∀ u, u < rest.length →
        qs.getD (rest.getD u dummyCoordInfo).coordIndex 0 = jointQs.getD (i + u) 0) →
      (∀ u, u < rest.length → (rest.getD u dummyCoordInfo).coordIndex < qs.length) →
      (∀ j, 3 * markers.length ≤ j → pf.getD j 0 = 0) →
      (∀ m r, m < markers.length → r < 3 →
        (markers.getD m mdefault).validExperimentalPosition = false →
        pf.getD (3 * m + r) 0 = 0) →
      3 * markers.length ≤ pf.length →
      i + rest.length ≤ J.length →
      3 * markers.length ≤ row →
      row + (weightedQs rest).length ≤ pf.length →
      ((jacLoop env markers mw dx jointQs rest i row qs pf J).2.getD (i + t) []).length
          = pf.length ∧
      (∀ m r, m < markers.length → r < 3 →
        ((jacLoop env markers mw dx jointQs rest i row qs pf J).2.getD (i + t) []).getD
            (3 * m + r) 0 =
          (if (markers.getD m mdefault).validExperimentalPosition then
            (1 / dx.getD (i + t) 0) * (mw.getD m 0 *
              ((env.fk (qs.set (rest.getD t dummyCoordInfo).coordIndex
                  (jointQs.getD (i + t) 0 + dx.getD (i + t) 0)) m).nth r -
                (markers.getD m mdefault).computedPosition.nth r))
          else 0)) ∧
      (∀ j, 3 * markers.length ≤ j → j < pf.length →
        ((jacLoop env markers mw dx jointQs rest i row qs pf J).2.getD (i + t) []).getD
            j 0 =
          (if (rest.getD t dummyCoordInfo).weight ≠ 0 ∧
              j = row + (weightedQs (rest.take t)).length then
            env.sqrt (rest.getD t dummyCoordInfo).weight
          else 0))
  | [], i, row, qs, pf, J, t, ht, hq, hqlen, hpf0, hpfinv, hpl, hJ, hrow, hrowlen => by
    simp at ht
  | c :: rest, i, row, qs, pf, J, t, ht, hq, hqlen, hpf0, hpfinv, hpl, hJ, hrow, hrowlen => by
    rw [List.length_cons] at ht hJ
    have hqs2 : (qs.set c.coordIndex
        (jointQs.getD i 0 + dx.getD i 0)).set c.coordIndex (jointQs.getD i 0) = qs := by
      rw [List.set_set]
      have h0 := hq 0 (by simp)
      rw [List.getD_cons_zero, Nat.add_zero] at h0
      rw [← h0]
      refine set_getD_self qs c.coordIndex ?_
      have := hqlen 0 (by simp)
      rwa [List.getD_cons_zero] at this
    have hpl1 : (jacMarkerPass env mw
        (qs.set c.coordIndex (jointQs.getD i 0 + dx.getD i 0)) markers 0 pf).length =
        pf.length := jacMarkerPass_length env mw _ markers 0 pf
    have hpf0' : ∀ j, 3 * markers.length ≤ j →
        (jacMarkerPass env mw (qs.set c.coordIndex
          (jointQs.getD i 0 + dx.getD i 0)) markers 0 pf).getD j 0 = 0 := by
      intro j hj
      rw [jacMarkerPass_frozen env mw _ markers 0 pf j (Or.inr (by omega))]
      exact hpf0 j hj
    have hpfinv' : ∀ m r, m < markers.length → r < 3 →
        (markers.getD m mdefault).validExperimentalPosition = false →
        (jacMarkerPass env mw (qs.set c.coordIndex
          (jointQs.getD i 0 + dx.getD i 0)) markers 0 pf).getD (3 * m + r) 0 = 0 := by
      intro m r hm hr hv
      have := jacMarkerPass_at env mw (qs.set c.coordIndex
        (jointQs.getD i 0 + dx.getD i 0)) markers 0 pf m r hm hr (by omega)
      rw [Nat.zero_add] at this
      rw [this, if_neg (by rw [hv]; exact Bool.false_ne_true)]
      exact hpfinv m r hm hr hv
    match t with
    | 0 =>
      simp only [Nat.add_zero, List.getD_cons_zero, List.take_zero]
      have hcol : (jacLoop env markers mw dx jointQs (c :: rest) i row qs pf J).2.getD
          i [] =
          (if c.weight ≠ 0 then
            ((J.set i ((jacMarkerPass env mw (qs.set c.coordIndex
              (jointQs.getD i 0 + dx.getD i 0)) markers 0 pf).map
                (fun v => (1 / dx.getD i 0) * v))).getD i []).set row (env.sqrt c.weight)
          else
            (jacMarkerPass env mw (qs.set c.coordIndex
              (jointQs.getD i 0 + dx.getD i 0)) markers 0 pf).map
                (fun v => (1 / dx.getD i 0) * v)) := by
        by_cases hw : c.weight ≠ 0
        · simp only [jacLoop, if_pos hw]
          rw [jacLoop_cols_lt env markers mw dx jointQs rest (i + 1) (row + 1) _ _ _ i
            (by omega)]
          rw [getD_set_self _ _ _ _ (by simp only [List.length_set]; omega)]
        · simp only [jacLoop, if_neg hw]
          rw [jacLoop_cols_lt env markers mw dx jointQs rest (i + 1) row _ _ _ i
            (by omega)]
          rw [getD_set_self _ _ _ _ (by omega)]
      rw [hcol]
      have hmaplen : ((jacMarkerPass env mw (qs.set c.coordIndex
          (jointQs.getD i 0 + dx.getD i 0)) markers 0 pf).map
            (fun v => (1 / dx.getD i 0) * v)).length = pf.length := by
        rw [List.length_map, hpl1]
      have hmarkerrow : ∀ m r, m < markers.length → r < 3 →
          (((jacMarkerPass env mw (qs.set c.coordIndex
            (jointQs.getD i 0 + dx.getD i 0)) markers 0 pf).map
              (fun v => (1 / dx.getD i 0) * v)).getD (3 * m + r) 0 =
            (if (markers.getD m mdefault).validExperimentalPosition then
              (1 / dx.getD i 0) * (mw.getD m 0 *
                ((env.fk (qs.set c.coordIndex
                    (jointQs.getD i 0 + dx.getD i 0)) m).nth r -
                  (markers.getD m mdefault).computedPosition.nth r))
            else 0)) := by
        intro m r hm hr
        rw [getD_map _ _ _ 0 0 (by rw [hpl1]; omega)]
        have := jacMarkerPass_at env mw (qs.set c.coordIndex
          (jointQs.getD i 0 + dx.getD i 0)) markers 0 pf m r hm hr (by omega)
        rw [Nat.zero_add] at this
        rw [this]
        by_cases hv : (markers.getD m mdefault).validExperimentalPosition
        · rw [if_pos hv, if_pos hv]
        · rw [if_neg hv, if_neg hv]
          rw [hpfinv m r hm hr (Bool.not_eq_true _ ▸ hv)]
          exact mul_zero _
      have htrailrow : ∀ j, 3 * markers.length ≤ j → j < pf.length →
          (((jacMarkerPass env mw (qs.set c.coordIndex
            (jointQs.getD i 0 + dx.getD i 0)) markers 0 pf).map
              (fun v => (1 / dx.getD i 0) * v)).getD j 0 = 0) := by
        intro j hj hjl
        rw [getD_map _ _ _ 0 0 (by rw [hpl1]; omega)]
        rw [hpf0' j hj]
        exact mul_zero _
      by_cases hw : c.weight ≠ 0
      · rw [if_pos hw]
        rw [getD_set_self _ _ _ _ (by omega : i < J.length)]
        refine ⟨by rw [List.length_set, hmaplen], ?_, ?_⟩
        · intro m r hm hr
          rw [getD_set_ne _ _ _ _ _ (by omega)]
          exact hmarkerrow m r hm hr
        · intro j hj hjl
          by_cases hjrow : j = row
          · rw [hjrow]
            rw [getD_set_self _ _ _ _ ?_]
            · rw [if_pos ⟨hw, by simp [weightedQs]⟩]
            · rw [hmaplen]
              rw [weightedQs_cons, if_pos hw, List.length_cons] at hrowlen
              omega
          · rw [getD_set_ne _ _ _ _ _ (fun e => hjrow e.symm)]
            rw [htrailrow j hj hjl]
            rw [if_neg ?_]
            rintro ⟨-, hjr⟩
            apply hjrow
            rw [hjr]
            simp [weightedQs]
      · rw [if_neg hw]
        refine ⟨hmaplen, hmarkerrow, ?_⟩
        intro j hj hjl
        rw [htrailrow j hj hjl]
        rw [if_neg (fun hc => hw hc.1)]
    | t + 1 =>
      have hstep : (jacLoop env markers mw dx jointQs (c :: rest) i row qs pf J).2 =
          (if c.weight ≠ 0 then
            jacLoop env markers mw dx jointQs rest (i + 1) (row + 1) qs
              (jacMarkerPass env mw (qs.set c.coordIndex
                (jointQs.getD i 0 + dx.getD i 0)) markers 0 pf)
              ((J.set i ((jacMarkerPass env mw (qs.set c.coordIndex
                (jointQs.getD i 0 + dx.getD i 0)) markers 0 pf).map
                  (fun v => (1 / dx.getD i 0) * v))).set i
                (((J.set i ((jacMarkerPass env mw (qs.set c.coordIndex
                  (jointQs.getD i 0 + dx.getD i 0)) markers 0 pf).map
                    (fun v => (1 / dx.getD i 0) * v))).getD i []).set row
                  (env.sqrt c.weight)))
          else
            jacLoop env markers mw dx jointQs rest (i + 1) row qs
              (jacMarkerPass env mw (qs.set c.coordIndex
                (jointQs.getD i 0 + dx.getD i 0)) markers 0 pf)
              (J.set i ((jacMarkerPass env mw (qs.set c.coordIndex
                (jointQs.getD i 0 + dx.getD i 0)) markers 0 pf).map
                  (fun v => (1 / dx.getD i 0) * v)))).2 := by
        by_cases hw : c.weight ≠ 0
        · simp only [jacLoop, if_pos hw, hqs2]
        · simp only [jacLoop, if_neg hw, hqs2]
      have hq' : ∀ u, u < rest.length →
          qs.getD (rest.getD u dummyCoordInfo).coordIndex 0 =
            jointQs.getD ((i + 1) + u) 0 := by
        intro u hu
        have := hq (u + 1) (by rw [List.length_cons]; omega)
        rw [List.getD_cons_succ] at this
        rw [this]
        rw [show i + (u + 1) = i + 1 + u from by omega]
      have hqlen' : ∀ u, u < rest.length →
          (rest.getD u dummyCoordInfo).coordIndex < qs.length := by
        intro u hu
        have := hqlen (u + 1) (by rw [List.length_cons]; omega)
        rwa [List.getD_cons_succ] at this
      have hidx : i + (t + 1) = (i + 1) + t := by omega
      have hwq : ∀ row', (c.weight ≠ 0 → row' = row + 1) → (¬ c.weight ≠ 0 → row' = row) →
          row' + ((weightedQs ((c :: rest).take (t + 1))).length -
            (if c.weight ≠ 0 then 1 else 0)) = row' + (weightedQs (rest.take t)).length := by
        intro row' h1 h2
        rw [List.take_succ_cons, weightedQs_cons]
        by_cases hw : c.weight ≠ 0 <;> simp [hw]
      rw [hstep]
      by_cases hw : c.weight ≠ 0
      · rw [if_pos hw]
        have ih := jacLoop_final env markers mw dx jointQs rest (i + 1) (row + 1) qs
          (jacMarkerPass env mw (qs.set c.coordIndex
            (jointQs.getD i 0 + dx.getD i 0)) markers 0 pf)
          ((J.set i ((jacMarkerPass env mw (qs.set c.coordIndex
            (jointQs.getD i 0 + dx.getD i 0)) markers 0 pf).map
              (fun v => (1 / dx.getD i 0) * v))).set i
            (((J.set i ((jacMarkerPass env mw (qs.set c.coordIndex
              (jointQs.getD i 0 + dx.getD i 0)) markers 0 pf).map
                (fun v => (1 / dx.getD i 0) * v))).getD i []).set row
              (env.sqrt c.weight))) t
          (by omega) hq' hqlen' hpf0' hpfinv' (by omega)
          (by simp only [List.length_set]; omega) (by omega)
          (by rw [hpl1]; rw [weightedQs_cons, if_pos hw, List.length_cons] at hrowlen; omega)
        rw [hpl1] at ih
        rw [hidx, List.getD_cons_succ]
        refine ⟨ih.1, ih.2.1, ?_⟩
        intro j hj hjl
        rw [ih.2.2 j hj hjl]
        rw [List.take_succ_cons, weightedQs_cons, if_pos hw, List.length_cons]
        rw [show row + 1 + (weightedQs (rest.take t)).length =
          row + ((weightedQs (rest.take t)).length + 1) from by omega]
      · rw [if_neg hw]
        have ih := jacLoop_final env markers mw dx jointQs rest (i + 1) row qs
          (jacMarkerPass env mw (qs.set c.coordIndex
            (jointQs.getD i 0 + dx.getD i 0)) markers 0 pf)
          (J.set i ((jacMarkerPass env mw (qs.set c.coordIndex
            (jointQs.getD i 0 + dx.getD i 0)) markers 0 pf).map
              (fun v => (1 / dx.getD i 0) * v))) t
          (by omega) hq' hqlen' hpf0' hpfinv' (by omega)
          (by simp only [List.length_set]; omega) (by omega)
          (by rw [hpl1]; rw [weightedQs_cons, if_neg hw] at hrowlen; omega)
        rw [hpl1] at ih
        rw [hidx, List.getD_cons_succ]
        refine ⟨ih.1, ih.2.1, ?_⟩
        intro j hj hjl
        rw [ih.2.2 j hj hjl]
        rw [List.take_succ_cons, weightedQs_cons, if_neg hw]

/-- The Jacobian control loop preserves the number of columns. -/
theorem jacLoop_J_length (env : Env) (markers : List markerToSolve)
    (mw dx jointQs : List ℚ) :
    ∀ (rest : List coordinateInfo) (i row : Nat) (qs pf : List ℚ)
      (J : List (List ℚ)),
      (jacLoop env markers mw dx jointQs rest i row qs pf J).2.length = J.length
  | [], i, row, qs, pf, J => by simp [jacLoop]
  | c :: rest, i, row, qs, pf, J => by
    by_cases hw : c.weight ≠ 0
    · simp only [jacLoop, if_pos hw]
      rw [jacLoop_J_length env markers mw dx jointQs rest (i + 1) (row + 1)]
      simp
    · simp only [jacLoop, if_neg hw]
      rw [jacLoop_J_length env markers mw dx jointQs rest (i + 1) row]
      simp

/-- Entry `m` of the `markerWeights` vector. -/
theorem markerWeights_getD (env : Env) (markers : List markerToSolve) (m : Nat)
    (hm : m < markers.length) :
    (markerWeights env markers).getD m 0 =
      (if (markers.getD m mdefault).validExperimentalPosition then
        env.sqrt (markers.getD m mdefault).weight
      else 0) :=
  getD_map _ markers m 0 mdefault hm

/-- C7: called at a model configuration matching `jointQs` (as the solver
guarantees), `createJacobian` fills a matrix of
`|parameters|` columns, each of length
`3*|markers| + |weightedUnprescribedCoordinates|`; column `t` holds, in each row
of a marker with a valid experimental position, the one-sided forward difference
`sqrt(weight) * (perturbedComputed - baselineComputed) / step` with the fixed
step `dx[t]`; zero in every row of a marker with an invalid experimental
position; and in the trailing rows zero everywhere except — when coordinate `t`
has nonzero weight — exactly `sqrt(weight)` at its own residual row, independent
of the finite-difference step. -/
theorem createJacobian_entries (env : Env) (markers : List markerToSolve)
    (ups : List coordinateInfo) (qs dx jointQs : List ℚ) (J : List (List ℚ))
    (hq : ∀ u, u < ups.length →
      qs.getD (ups.getD u dummyCoordInfo).coordIndex 0 = jointQs.getD u 0)
    (hqlen : ∀ u, u < ups.length → (ups.getD u dummyCoordInfo).coordIndex < qs.length)
    (hJ : J.length = ups.length) :
    (createJacobian env markers ups qs dx jointQs J).2.length = ups.length ∧
    ∀ t, t < ups.length →
      ((createJacobian env markers ups qs dx jointQs J).2.getD t []).length =
          3 * markers.length + (weightedQs ups).length ∧
      (∀ m r, m < markers.length → r < 3 →
        ((createJacobian env markers ups qs dx jointQs J).2.getD t []).getD
            (3 * m + r) 0 =
          (if (markers.getD m mdefault).validExperimentalPosition then
            env.sqrt (markers.getD m mdefault).weight *
              ((env.fk (qs.set (ups.getD t dummyCoordInfo).coordIndex
                  (jointQs.getD t 0 + dx.getD t 0)) m).nth r -
                (markers.getD m mdefault).computedPosition.nth r) / dx.getD t 0
          else 0)) ∧
      (∀ j, 3 * markers.length ≤ j →
          j < 3 * markers.length + (weightedQs ups).length →
        ((createJacobian env markers ups qs dx jointQs J).2.getD t []).getD j 0 =
          (if (ups.getD t dummyCoordInfo).weight ≠ 0 ∧
              j = 3 * markers.length + (weightedQs (ups.take t)).length then
            env.sqrt (ups.getD t dummyCoordInfo).weight
          else 0)) := by
  constructor
  · simp only [createJacobian]
    rw [jacLoop_J_length]
    exact hJ
  · intro t ht
    have key := jacLoop_final env markers (markerWeights env markers) dx jointQs ups 0
      (3 * markers.length) qs
      (List.replicate (3 * markers.length + (weightedQs ups).length) (0 : ℚ)) J t ht
      (by intro u hu; rw [Nat.zero_add]; exact hq u hu)
      hqlen
      (by intro j hj; exact getD_replicate_zero _ j)
      (by intro m r hm hr hv; exact getD_replicate_zero _ _)
      (by rw [List.length_replicate]; omega)
      (by omega)
      (le_refl _)
      (by rw [List.length_replicate])
    rw [Nat.zero_add, List.length_replicate] at key
    have hcreate : (createJacobian env markers ups qs dx jointQs J).2 =
        (jacLoop env markers (markerWeights env markers) dx jointQs ups 0
          (3 * markers.length) qs
          (List.replicate (3 * markers.length + (weightedQs ups).length) (0 : ℚ)) J).2 := rfl
    rw [hcreate]
    refine ⟨key.1, ?_, key.2.2⟩
    intro m r hm hr
    rw [key.2.1 m r hm hr]
    by_cases hv : (markers.getD m mdefault).validExperimentalPosition
    · rw [if_pos hv, if_pos hv]
      rw [markerWeights_getD env markers m hm, if_pos hv]
      ring
    · rw [if_neg hv, if_neg hv]

/-- Concrete weighted coordinate for the C7 witness. -/
def cC7 : coordinateInfo :=
  { coordIndex := 0, prescribed := false, experimentalColumn := -1
    constantExperimentalValue := 0, weight := 3, experimentalValue := 4 }

/-- Witness for C7 at a concrete input: one valid marker, one weighted
parameter, model configuration already at `jointQs`. -/
theorem createJacobian_entries_witness :
    (∀ u, u < [cC7].length →
      ([4] : List ℚ).getD (([cC7].getD u dummyCoordInfo).coordIndex) 0 =
        ([4] : List ℚ).getD u 0) ∧
    (∀ u, u < [cC7].length →
      ([cC7].getD u dummyCoordInfo).coordIndex < ([4] : List ℚ).length) ∧
    ([[0, 0, 0, 0]] : List (List ℚ)).length = [cC7].length ∧
    ((createJacobian envW [mC2] [cC7] [4] [perturbation] [4] [[0, 0, 0, 0]]).2.length =
        [cC7].length ∧
    ∀ t, t < [cC7].length →
      ((createJacobian envW [mC2] [cC7] [4] [perturbation] [4]
          [[0, 0, 0, 0]]).2.getD t []).length =
          3 * [mC2].length + (weightedQs [cC7]).length ∧
      (∀ m r, m < [mC2].length → r < 3 →
        ((createJacobian envW [mC2] [cC7] [4] [perturbation] [4]
            [[0, 0, 0, 0]]).2.getD t []).getD (3 * m + r) 0 =
          (if ([mC2].getD m mdefault).validExperimentalPosition then
            envW.sqrt ([mC2].getD m mdefault).weight *
              ((envW.fk (([4] : List ℚ).set ([cC7].getD t dummyCoordInfo).coordIndex
                  (([4] : List ℚ).getD t 0 + ([perturbation] : List ℚ).getD t 0)) m).nth r -
                ([mC2].getD m mdefault).computedPosition.nth r) /
              ([perturbation] : List ℚ).getD t 0
          else 0)) ∧
      (∀ j, 3 * [mC2].length ≤ j → j < 3 * [mC2].length + (weightedQs [cC7]).length →
        ((createJacobian envW [mC2] [cC7] [4] [perturbation] [4]
            [[0, 0, 0, 0]]).2.getD t []).getD j 0 =
          (if ([cC7].getD t dummyCoordInfo).weight ≠ 0 ∧
              j = 3 * [mC2].length + (weightedQs ([cC7].take t)).length then
            envW.sqrt ([cC7].getD t dummyCoordInfo).weight
          else 0))) :=
  ⟨fun u hu => by
      have h1 : u = 0 := by simp at hu; omega
      rw [h1]; decide,
   fun u hu => by
      have h1 : u = 0 := by simp at hu; omega
      rw [h1]; decide,
   by decide,
   createJacobian_entries envW [mC2] [cC7] [4] [perturbation] [4] [[0, 0, 0, 0]]
     (fun u hu => by
       have h1 : u = 0 := by simp at hu; omega
       rw [h1]; decide)
     (fun u hu => by
       have h1 : u = 0 := by simp at hu; omega
       rw [h1]; decide)
     (by decide)⟩

/-- One accepted outer iteration increments the iteration counter by exactly
one. -/
theorem outerStep_iter (env : Env) (ups : List coordinateInfo) (dx : List ℚ)
    (bfuel : Nat) (st st' : SState)
    (h : outerStep env ups dx bfuel st = some st') :
    st'.iter = st.iter + 1 := by
  simp only [outerStep, Option.map_eq_some'] at h
  obtain ⟨out, hbt, hst⟩ := h
  rw [← hst]

/-- The outer loop never drives the iteration counter past `maxIter`. -/
theorem solverLoop_iter_bound (env : Env) (ups : List coordinateInfo)
    (dx : List ℚ) (bfuel : Nat) :
    ∀ (fuel : Nat) (st st' : SState), st.iter ≤ maxIter →
      solverLoop env ups dx bfuel fuel st = some st' →
      st'.iter ≤ maxIter
  | 0, st, st', hle => by
    simp [solverLoop]
    intro h
    rw [← h]
    exact hle
  | fuel + 1, st, st', hle => by
    by_cases hg : st.delta > errTol ∧ st.iter < maxIter
    · simp only [solverLoop, if_pos hg]
      cases hstep : outerStep env ups dx bfuel st with
      | none => intro h; cases h
      | some st1 =>
        intro h
        refine solverLoop_iter_bound env ups dx bfuel fuel st1 st' ?_ h
        rw [outerStep_iter env ups dx bfuel st st1 hstep]
        omega
    · simp only [solverLoop, if_neg hg, Option.some.injEq]
      intro h
      rw [← h]
      exact hle
/-- With enough fuel relative to the remaining iteration budget, the outer loop
can only return through its own guard: the returned state satisfies the loop's
negated guard (converged, or iteration cap reached). -/
theorem solverLoop_exit (env : Env) (ups : List coordinateInfo) (dx : List ℚ)
    (bfuel : Nat) :
    ∀ (fuel : Nat) (st st' : SState), maxIter ≤ st.iter + fuel →
      solverLoop env ups dx bfuel fuel st = some st' →
      ¬(st'.delta > errTol ∧ st'.iter < maxIter)
  | 0, st, st', hf => by
    simp [solverLoop]
    intro h
    rw [← h]
    intro hd
    omega
  | fuel + 1, st, st', hf => by
    by_cases hg : st.delta > errTol ∧ st.iter < maxIter
    · simp only [solverLoop, if_pos hg]
      cases hstep : outerStep env ups dx bfuel st with
      | none => intro h; cases h
      | some st1 =>
        intro h
        refine solverLoop_exit env ups dx bfuel fuel st1 st' ?_ h
        rw [outerStep_iter env ups dx bfuel st st1 hstep]
        omega
    · simp only [solverLoop, if_neg hg, Option.some.injEq]
      intro h
      rw [← h]
      exact hg

/-- C8: whenever `iterativeOptimization` returns (i.e. under the precondition
that every inner backtracking halving loop terminates, made explicit by the
fuel), it terminates after at most the fixed `maxIter = 1000` outer iterations;
the loop is left only through its own guard — as soon as the change in accepted
residual norm is at or below the fixed tolerance `errTol = 1e-4`, the loop
returns immediately with its current state (the converged case), the only other
exit being the iteration cap; afterwards the final pose is reapplied to the
model exactly once and the function returns status 0, so the caller cannot
distinguish convergence from the iteration cap from the returned value. -/
theorem iterativeOptimization_terminates (env : Env) (bfuel : Nat) (s : TState)
    (results : List ℚ) (status : Int) (iters : Nat) (res : List ℚ) (s' : TState)
    (h : iterativeOptimization env bfuel s results = some (status, iters, res, s')) :
    status = 0 ∧
    iters ≤ 1000 ∧
    (∃ st : SState, st.results = res ∧ st.iter = iters ∧
      ¬(st.delta > errTol ∧ st.iter < maxIter) ∧
      s'.qs = setCoordValues s.unprescribedQs res st.qs ∧
      s'.markers = st.markers) ∧
    (∀ (fuel : Nat) (st : SState), ¬(st.delta > errTol ∧ st.iter < maxIter) →
      solverLoop env s.unprescribedQs s.dx bfuel fuel st = some st) := by
  simp only [iterativeOptimization, Option.map_eq_some'] at h
  obtain ⟨st, hloop, hout⟩ := h
  have hstatus : status = 0 := by
    have := congrArg Prod.fst hout
    exact this.symm
  have hiters : iters = st.iter := by
    have := congrArg (fun t => t.2.1) hout
    exact this.symm
  have hres : res = st.results := by
    have := congrArg (fun t => t.2.2.1) hout
    exact this.symm
  have hs' : s' =
      { s with
        qs := setCoordValues s.unprescribedQs st.results st.qs
        markers := st.markers } := by
    have := congrArg (fun t => t.2.2.2) hout
    exact this.symm
  refine ⟨hstatus, ?_, ?_, ?_⟩
  · rw [hiters]
    exact solverLoop_iter_bound env s.unprescribedQs s.dx bfuel maxIter _ st
      (by simp) hloop
  · refine ⟨st, hres.symm, hiters.symm, ?_, ?_, ?_⟩
    · exact solverLoop_exit env s.unprescribedQs s.dx bfuel maxIter _ st
        (by simp [maxIter]) hloop
    · simp [hs', hres]
    · simp [hs']
  · intro fuel st0 hg
    exact solverLoop_stop env s.unprescribedQs s.dx bfuel fuel st0 hg

/-- Concrete full run of the iterative solver, for the C8 witness. -/
theorem iterOpt_eval_C8 :
    iterativeOptimization envW 5 sC2 [] =
      some (0, 1, [],
        { sC2 with markers := [{ mC2 with computedPosition := ⟨0, 0, 0⟩ }] }) := by
  simp only [iterativeOptimization]
  norm_num [sC2, mC2, envW, weightedQs, setCoordValues, setCoordValues.go,
    computeDError, dErrMarkerPass, dErrQPass, dnorm, List.replicate]
  rw [solverLoop_start _ _ _ _ _ (by constructor <;> norm_num [errTol, maxIter])]
  norm_num [outerStep, createJacobian, jacLoop, markerWeights, addVec, computeDError,
    dErrMarkerPass, dErrQPass, dnorm, envW, setCoordValues, setCoordValues.go,
    backtrackLoop_done]
  rw [solverLoop_stop _ _ _ _ _ _ (by norm_num [errTol])]
  norm_num

/-- Witness for C8 at a concrete input. -/
theorem iterativeOptimization_terminates_witness :
    iterativeOptimization envW 5 sC2 [] =
      some (0, 1, [],
        { sC2 with markers := [{ mC2 with computedPosition := ⟨0, 0, 0⟩ }] }) ∧
    ((0 : Int) = 0 ∧
    1 ≤ 1000 ∧
    (∃ st : SState, st.results = [] ∧ st.iter = 1 ∧
      ¬(st.delta > errTol ∧ st.iter < maxIter) ∧
      ({ sC2 with markers := [{ mC2 with computedPosition := ⟨0, 0, 0⟩ }] }).qs =
        setCoordValues sC2.unprescribedQs [] st.qs ∧
      ({ sC2 with markers := [{ mC2 with computedPosition := ⟨0, 0, 0⟩ }] }).markers =
        st.markers) ∧
    (∀ (fuel : Nat) (st : SState), ¬(st.delta > errTol ∧ st.iter < maxIter) →
      solverLoop envW sC2.unprescribedQs sC2.dx 5 fuel st = some st)) :=
  ⟨iterOpt_eval_C8,
   iterativeOptimization_terminates envW 5 sC2 [] 0 1 []
     { sC2 with markers := [{ mC2 with computedPosition := ⟨0, 0, 0⟩ }] }
     iterOpt_eval_C8⟩

/-- Reading an in-range entry of `List.range`. -/
theorem getD_range (n i : Nat) (h : i < n) : (List.range n).getD i 0 = i := by
  rw [List.getD_eq_getElem?_getD, List.getElem?_range h]
  rfl

/-- Reading an in-range entry of a replicated list. -/
theorem getD_replicate_of_lt {α : Type} (a d : α) (n i : Nat) (h : i < n) :
    (List.replicate n a).getD i d = a := by
  rw [List.getD_eq_getElem?_getD, List.getElem?_replicate, if_pos h]
  rfl

/-- C1 (the differencing routine is modelled from the spec, see
`CentralDifferences`): with the cancellation flag clear and the constructor's
step allocation `_dx[i] = _perturbation = 1e-3`, `gradientFunc` returns status 0
and a gradient with one component per parameter of `x`, where component `i` is
the one-sided forward finite difference of the scalar objective —
`(objective(x with x_i increased by _dx[i]) - objective(x)) / _dx[i]` — and the
differenced scalar is exactly the objective value that `objectiveFunc` itself
returns. -/
theorem gradientFunc_forward_difference (env : Env) (s : TState) (x : List ℚ)
    (hint : s.interrupted = false)
    (hdx : s.dx = mkDx s.unprescribedQs.length) :
    ∃ g : List ℚ, gradientFunc env s x = .ok (0, g) ∧ g.length = x.length ∧
      (∀ i, i < x.length → i < s.unprescribedQs.length →
        g.getD i 0 =
          ((objectiveEval env s (x.set i (x.getD i 0 + perturbation))).1 -
            (objectiveEval env s x).1) / perturbation) ∧
      (∀ y : List ℚ, ∃ s'' : TState,
        objectiveFunc env s y = .ok (0, (objectiveEval env s y).1, s'')) := by
  refine ⟨CentralDifferences (fun y => (objectiveEval env s y).1) s.dx x, ?_, ?_, ?_, ?_⟩
  · simp [gradientFunc, hint]
  · simp [CentralDifferences]
  · intro i hix hin
    simp only [CentralDifferences]
    rw [getD_map _ _ i 0 0 (by simpa using hix)]
    rw [getD_range x.length i hix]
    rw [hdx, mkDx, getD_replicate_of_lt _ _ _ _ hin]
  · intro y
    refine ⟨(objectiveEval env s y).2, ?_⟩
    simp [objectiveFunc, hint]

/-- Witness for C1 at a concrete input. -/
theorem gradientFunc_forward_difference_witness :
    sC3.interrupted = false ∧
    sC3.dx = mkDx sC3.unprescribedQs.length ∧
    (∃ g : List ℚ, gradientFunc envW sC3 [6] = .ok (0, g) ∧
      g.length = ([6] : List ℚ).length ∧
      (∀ i, i < ([6] : List ℚ).length → i < sC3.unprescribedQs.length →
        g.getD i 0 =
          ((objectiveEval envW sC3 (([6] : List ℚ).set i
              (([6] : List ℚ).getD i 0 + perturbation))).1 -
            (objectiveEval envW sC3 [6]).1) / perturbation) ∧
      (∀ y : List ℚ, ∃ s'' : TState,
        objectiveFunc envW sC3 y = .ok (0, (objectiveEval envW sC3 y).1, s''))) :=
  ⟨rfl, rfl,
   gradientFunc_forward_difference envW sC3 [6] rfl rfl⟩
